import Mathlib

/-! A shallow embedding of `src/pool-secret.c` (pool-secret).

The C program binds a cryptographic provider, puts its random number generator
in FIPS mode, seeds it, draws 16-byte buffers, renders each as a grouped
hexadecimal token and joins the tokens with `/`.

Conventions of the embedding:

* a `char` buffer that the program writes through a pointer is a `List Char`
  together with a `Nat` offset; a store outside the buffer is the fault
  `Fault.write`, a load outside the source buffer is `Fault.read`;
* loops carry a fuel argument; running out of fuel is `Fault.fuel`;
* a byte of raw entropy is a `Nat` (its value as `unsigned char`); the array
  `randBuf` is one list of sixteen bytes for the whole call, indeterminate at
  first (`randBuf0`), and `fillBuf` overwrites it with what a draw wrote, so a
  byte that a draw left alone keeps the value it had before;
* the provider is an arbitrary deterministic state machine `Provider σ`;
  every call made to it is appended to `World.calls`, standard output is
  `World.out` and the diagnostics are `World.err`;
* `generate_pool_secret` enters its `for` loop by `goto start`:
  `generate_pool_secret_start` is the code from that label on, so the test
  `i < 3` is first evaluated after the first token and `++i`.
-/

namespace PoolSecret

/-! ## Definitions: memory, faults and `sprintf` -/

/-- Ways in which a run of the model can stop without a C-level result. -/
inductive Fault where
  | read
  | write
  | fuel
  deriving DecidableEq, Repr

deriving instance DecidableEq for Except

/-- The terminating byte of a C string. -/
def NUL : Char := Char.ofNat 0

/-- Store of one `char` at offset `p` of the buffer `m`. -/
def store (m : List Char) (p : Nat) (c : Char) : Except Fault (List Char) :=
  if p < m.length then .ok (m.set p c) else .error .write

/-- Store of consecutive `char`s starting at offset `p`. -/
def storeAll : List Char → Nat → List Char → Except Fault (List Char)
  | m, _, [] => .ok m
  | m, p, c :: cs =>
    match store m p c with
    | .ok m1 => storeAll m1 (p + 1) cs
    | .error e => .error e

/-- Load of one byte at index `k` of a source buffer. -/
def load (src : List Nat) (k : Nat) : Except Fault Nat :=
  match src[k]? with
  | some b => .ok b
  | none => .error .read

/-- Value of a stored byte read through a `const char *` (signed `char`). -/
def readChar (b : Nat) : Int :=
  if b % 256 < 128 then (b % 256 : Nat) else ((b % 256 : Nat) : Int) - 256

/-- The cast `(unsigned char)x`. -/
def toUChar (x : Int) : Nat := (x % 256).toNat

/-- Text produced by the conversion `%02x`: lowercase hexadecimal, padded with
zeros on the left to a width of at least two. -/
def fmt_02x (v : Nat) : List Char :=
  let ds := Nat.toDigits 16 v
  List.replicate (2 - ds.length) '0' ++ ds

/-- The call `sprintf(dest, "%02x", v)`: the text and its terminating NUL are
stored at `d`. -/
def sprintf_02x (m : List Char) (d : Nat) (v : Nat) : Except Fault (List Char) :=
  storeAll m d (fmt_02x v ++ [NUL])

/-! ### `format_to_hex` and `generate_uuid` -/

/-- The loop of `format_to_hex`: `for (; i < size; ++i)`, with `dest` at
offset `d` of `m` and `src` at offset `s` of its buffer. -/
def format_to_hex_loop (src : List Nat) (s size : Nat) :
    Nat → Nat → List Char → Nat → Except Fault (List Char × Nat)
  | fuel, i, m, d =>
    if i < size then
      match fuel with
      | 0 => .error .fuel
      | fuel + 1 =>
        match load src (s + i) with
        | .error e => .error e
        | .ok b =>
          match sprintf_02x m d (toUChar (readChar b)) with
          | .error e => .error e
          | .ok m1 => format_to_hex_loop src s size fuel (i + 1) m1 (d + 2)
    else .ok (m, i * 2)

/-- The function `format_to_hex (src, size, dest)`: returns the buffer after
the stores and the value `i * 2`. -/
def format_to_hex (src : List Nat) (s size : Nat) (m : List Char) (d : Nat) :
    Except Fault (List Char × Nat) :=
  format_to_hex_loop src s size size 0 m d

/-- The array `sizes` of `generate_uuid`. -/
def sizes : List Nat := [4, 2, 2, 2]

/-- The loop of `generate_uuid`: `for (i = 0; i < sizeof sizes; ++i)`; `p` is
the offset of the write pointer, `s` the offset of `src`. -/
def generate_uuid_loop (src : List Nat) :
    Nat → Nat → Nat → List Char → Nat → Except Fault (List Char × Nat × Nat)
  | fuel, i, s, m, p =>
    if i < sizes.length then
      match fuel with
      | 0 => .error .fuel
      | fuel + 1 =>
        match format_to_hex src s (sizes.getD i 0) m p with
        | .error e => .error e
        | .ok (m1, n) =>
          match store m1 (p + n) '-' with
          | .error e => .error e
          | .ok m2 =>
            generate_uuid_loop src fuel (i + 1) (s + sizes.getD i 0) m2 (p + n + 1)
    else .ok (m, s, p)

/-- The function `generate_uuid (src, dest)`: `src` at offset `s`, `dest` at
offset `d` of `m`; returns the buffer and `p - dest`. -/
def generate_uuid (src : List Nat) (s : Nat) (m : List Char) (d : Nat) :
    Except Fault (List Char × Nat) :=
  match generate_uuid_loop src sizes.length 0 s m d with
  | .error e => .error e
  | .ok (m1, s1, p) =>
    match format_to_hex src s1 6 m1 p with
    | .error e => .error e
    | .ok (m2, n) => .ok (m2, p + n - d)

/-! ### The provider, the linker and the observable world -/

/-- The five entry points of the bound library (the fields of the C global
`CryptoLib`), as transitions of a hidden provider state `σ`.  `randBytes st num`
returns the status and the bytes it wrote from the start of the caller's
buffer. -/
structure Provider (σ : Type) where
  getError : σ → Nat × σ
  getErrorString : σ → Nat → String × σ
  fipsModeSet : σ → Int → Int × σ
  randBytes : σ → Nat → (Int × List Nat) × σ
  randLoadFile : σ → String → Int → Int × σ

/-- One call made through `CryptoLib`, with its arguments and its result. -/
inductive Call where
  | getError (ret : Nat)
  | getErrorString (e : Nat) (ret : String)
  | fipsModeSet (status : Int) (ret : Int)
  | randBytes (num : Nat) (ret : Int) (bytes : List Nat)
  | randLoadFile (filename : String) (max_bytes : Int) (ret : Int)
  | dlclose
  deriving DecidableEq, Repr

/-- Everything outside the program's own variables: the provider state, the
calls made so far (oldest first), and the two output streams. -/
structure World (σ : Type) where
  lib : σ
  calls : List Call
  out : List Char
  err : List String
  deriving DecidableEq

/-- What `dlopen`, `dlsym` and `dlerror` answer. -/
structure Linker where
  dlopen : String → Bool
  dlsym : String → Bool
  dlerror : String

/-- The function `load_sym`: `true` when the symbol resolves. -/
def load_sym {σ : Type} (L : Linker) (name : String) (w : World σ) : Bool × World σ :=
  if L.dlsym name then (true, w)
  else
    (false, { w with err := w.err ++
      ["Failed to load `" ++ name ++ "` sym: `" ++ L.dlerror ++ "`.\n"] })

/-- The short-circuit conjunction of `load_sym` calls in `open_crypto_lib`. -/
def load_syms {σ : Type} (L : Linker) : List String → World σ → Bool × World σ
  | [], w => (true, w)
  | name :: rest, w =>
    match load_sym L name w with
    | (true, w1) => load_syms L rest w1
    | (false, w1) => (false, w1)

/-- The function `open_crypto_lib`. -/
def open_crypto_lib {σ : Type} (L : Linker) (path : String) (w : World σ) : Int × World σ :=
  if ¬ L.dlopen path then
    (-1, { w with err := w.err ++
      ["Failed to open `" ++ path ++ "`: `" ++ L.dlerror ++ "`.\n"] })
  else
    match load_syms L
      ["ERR_get_error", "ERR_error_string", "FIPS_mode_set", "RAND_bytes", "RAND_load_file"] w with
    | (true, w1) => (0, w1)
    | (false, w1) => (-1, w1)

/-- The function `close_crypto_lib`. -/
def close_crypto_lib {σ : Type} (w : World σ) : World σ :=
  { w with calls := w.calls ++ [Call.dlclose] }

/-- The function `crypto_get_error_str`. -/
def crypto_get_error_str {σ : Type} (P : Provider σ) (w : World σ) : String × World σ :=
  let (e, l1) := P.getError w.lib
  let (str, l2) := P.getErrorString l1 e
  (str, { w with lib := l2, calls := w.calls ++ [Call.getError e, Call.getErrorString e str] })

/-- The function `crypto_initialize_rng`. -/
def crypto_initialize_rng {σ : Type} (P : Provider σ) (w : World σ) : Int × World σ :=
  let (r, l1) := P.fipsModeSet w.lib 1
  let w1 : World σ := { w with lib := l1, calls := w.calls ++ [Call.fipsModeSet 1 r] }
  if r ≠ 1 then
    let (str, w2) := crypto_get_error_str P w1
    (-1, { w2 with err := w2.err ++ ["Failed to set FIPS mode: `" ++ str ++ "`.\n"] })
  else
    let (n, l2) := P.randLoadFile w1.lib "/dev/random" 32
    let w2 : World σ :=
      { w1 with lib := l2, calls := w1.calls ++ [Call.randLoadFile "/dev/random" 32 n] }
    if n ≠ 32 then
      (-1, { w2 with err := w2.err ++ ["Failed to add rand bytes to PRNG.\n"] })
    else (0, w2)

/-! ### `generate_pool_secret` and `main` -/

/-- Contents of a `num`-byte buffer that held `old` after the provider wrote
`bytes` from its start: a byte the provider did not write keeps its old
value. -/
def fillBuf (old : List Nat) (num : Nat) (bytes : List Nat) : List Nat :=
  (List.range num).map fun k => if k < bytes.length then bytes.getD k 0 % 256 else old.getD k 0

/-- The array `char randBuf[16]` of `generate_pool_secret` before any draw:
`junk k` is the indeterminate initial value of `randBuf[k]`. -/
def randBuf0 (junk : Nat → Nat) : List Nat := (List.range 16).map fun k => junk k % 256

/-- The body of `generate_pool_secret` from the label `start` on: the draw, the
token, then `++i`, the test `i < 3` and, when it holds, the separator and the
label `start` again.  After the loop the terminator is stored.  `rb` is the
array `randBuf` as the previous draws left it. -/
def generate_pool_secret_start {σ : Type} (P : Provider σ) :
    Nat → Nat → World σ → List Nat → List Char → Nat →
      Except Fault (Int × World σ × List Char)
  | 0, _, _, _, _, _ => .error .fuel
  | fuel + 1, i, w, rb, m, dest =>
    let ((r, bytes), l1) := P.randBytes w.lib 16
    let w1 : World σ := { w with lib := l1, calls := w.calls ++ [Call.randBytes 16 r bytes] }
    if r ≠ 1 then
      let (str, w2) := crypto_get_error_str P w1
      .ok (-1, { w2 with err := w2.err ++ ["Failed to read random bytes: `" ++ str ++ "`.\n"] }, m)
    else
      let randBuf := fillBuf rb 16 bytes
      match generate_uuid randBuf 0 m dest with
      | .error e => .error e
      | .ok (m1, n) =>
        let dest1 := dest + n
        let i1 := i + 1
        if i1 < 3 then
          match store m1 dest1 '/' with
          | .error e => .error e
          | .ok m2 => generate_pool_secret_start P fuel i1 w1 randBuf m2 (dest1 + 1)
        else
          match store m1 dest1 NUL with
          | .error e => .error e
          | .ok m2 => .ok (0, w1, m2)

/-- The function `generate_pool_secret (dest)`: `char randBuf[16]; i = 0; goto
start;`.  Returns the status, the world and the destination buffer. -/
def generate_pool_secret {σ : Type} (P : Provider σ) (junk : Nat → Nat) (w : World σ)
    (m : List Char) : Except Fault (Int × World σ × List Char) :=
  generate_pool_secret_start P 3 0 w (randBuf0 junk) m 0

/-- The C string that starts at offset 0 of a buffer. -/
def cstr (m : List Char) : List Char := m.takeWhile fun c => c ≠ NUL

/-- The call `puts(buf)`: the C string and a newline go to standard output. -/
def puts {σ : Type} (m : List Char) (w : World σ) : Except Fault (World σ) :=
  if NUL ∈ m then .ok { w with out := w.out ++ cstr m ++ ['\n'] } else .error .read

def EXIT_SUCCESS : Int := 0

def EXIT_FAILURE : Int := 1

/-- Size of the array `buf` of `main`. -/
def BUF_SIZE : Nat := 128

/-- The function `main`.  `argv` holds the `argc` arguments; `stack k` is the
indeterminate initial value of `buf[k]` and `junk k` that of `randBuf[k]` in
the call of `generate_pool_secret`. -/
def main {σ : Type} (L : Linker) (P : Provider σ) (argv : List String) (stack : Nat → Char)
    (junk : Nat → Nat) (w : World σ) : Except Fault (Int × World σ) :=
  if argv.length ≠ 2 then
    .ok (EXIT_FAILURE, { w with err := w.err ++ ["Usage: pool_secret <libcrypto.so path>\n"] })
  else
    match open_crypto_lib L (argv.getD 1 "") w with
    | (r0, w0) =>
      if r0 < 0 then .ok (EXIT_FAILURE, w0)
      else
        let buf : List Char := (List.range BUF_SIZE).map stack
        match crypto_initialize_rng P w0 with
        | (r1, w1) =>
          if r1 < 0 then .ok (EXIT_FAILURE, close_crypto_lib w1)
          else
            match generate_pool_secret P junk w1 buf with
            | .error e => .error e
            | .ok (r2, w2, buf2) =>
              if r2 < 0 then .ok (EXIT_FAILURE, close_crypto_lib w2)
              else
                match puts buf2 w2 with
                | .error e => .error e
                | .ok w3 => .ok (EXIT_SUCCESS, close_crypto_lib w3)

/-! ### Concrete providers and inputs for the runs of the witnesses -/

/-- A provider whose state counts the `RAND_bytes` calls made so far: the mode
set returns `mode`, the seeding returns `seed`, and the `k`-th draw returns
`draws k`. -/
def scripted (mode seed : Int) (draws : Nat → Int × List Nat) : Provider Nat where
  getError := fun st => (0, st)
  getErrorString := fun st _ => ("error", st)
  fipsModeSet := fun st _ => (mode, st)
  randBytes := fun st _ => (draws st, st + 1)
  randLoadFile := fun st _ _ => (seed, st)

/-- The world before `main` runs. -/
def World.init {σ : Type} (st : σ) : World σ := { lib := st, calls := [], out := [], err := [] }

/-- A linker that resolves everything. -/
def linkerOk : Linker := { dlopen := fun _ => true, dlsym := fun _ => true, dlerror := "" }

/-- Four distinct draws: draw `k` is the bytes `16k, 16k+1, ..., 16k+15`. -/
def draws4 (k : Nat) : Int × List Nat := (1, (List.range 16).map fun j => 16 * k + j)

/-! ### Reference definitions of the token, and the text the code leaves -/

/-- The lowercase hexadecimal digit of a value below sixteen. -/
def hexDigit (n : Nat) : Char := "0123456789abcdef".toList.getD n '0'

/-- Two zero-padded lowercase hexadecimal digits per byte, high nibble first,
in input order. -/
def hex (bs : List Nat) : List Char :=
  bs.flatMap fun b => [hexDigit (b / 16), hexDigit (b % 16)]

/-- Text that the loop of `format_to_hex` leaves for the bytes `bs`. -/
def hexCode (bs : List Nat) : List Char :=
  bs.flatMap fun b => fmt_02x (toUChar (readChar b))

/-- What is left of the region `t` behind the text of `n` bytes: the NUL of the
last `sprintf`, then the bytes that were not touched. -/
def nulTail (n : Nat) (t : List Char) : List Char :=
  if n = 0 then t else NUL :: t.drop (2 * n + 1)

/-- Text that `generate_uuid` leaves for the sixteen bytes at offset `s` of
`src`. -/
def tokenCode (src : List Nat) (s : Nat) : List Char :=
  hexCode ((src.drop s).take 4) ++ '-' :: (hexCode ((src.drop (s + 4)).take 2) ++ '-' ::
    (hexCode ((src.drop (s + 4 + 2)).take 2) ++ '-' ::
      (hexCode ((src.drop (s + 4 + 2 + 2)).take 2) ++ '-' ::
        hexCode ((src.drop (s + 4 + 2 + 2 + 2)).take 6))))

/-- A character of the class `[0-9a-f]`. -/
def isLowerHex (c : Char) : Bool := "0123456789abcdef".toList.contains c

/-- The character allowed at index `k` of a token: a dash at 8, 13, 18 and 23,
a lowercase hexadecimal digit elsewhere. -/
def isTokenChar (k : Nat) (c : Char) : Bool :=
  if k = 8 ∨ k = 13 ∨ k = 18 ∨ k = 23 then c == '-' else isLowerHex c

/-- The pattern `[0-9a-f]{8}-[0-9a-f]{4}-[0-9a-f]{4}-[0-9a-f]{4}-[0-9a-f]{12}`. -/
def isToken (tok : List Char) : Bool :=
  tok.length == 36 && (List.range 36).all fun k => isTokenChar k (tok.getD k ' ')

/-- The bytes `b[i..j]` of a buffer. -/
def slice (b : List Nat) (i j : Nat) : List Nat := (b.drop i).take (j - i)

/-- The token of a 16-byte buffer, as the specification words it: the groups
of 4, 2, 2, 2 and 6 bytes in hexadecimal, a dash after each of the first four. -/
def encode (b : List Nat) : List Char :=
  hex (slice b 0 4) ++ "-".toList ++ hex (slice b 4 6) ++ "-".toList ++ hex (slice b 6 8)
    ++ "-".toList ++ hex (slice b 8 10) ++ "-".toList ++ hex (slice b 10 16)

/-- The bytes stored from offset `d` on, `n` of them. -/
def written (m : List Char) (d n : Nat) : List Char := (m.drop d).take n

/-! ### Summaries of a run: worlds, tokens, traces -/

/-- The world after one more `RAND_bytes (randBuf, 16)` call. -/
def afterDraw {σ : Type} (P : Provider σ) (w : World σ) : World σ :=
  { w with
    lib := (P.randBytes w.lib 16).2
    calls := w.calls ++ [Call.randBytes 16 (P.randBytes w.lib 16).1.1 (P.randBytes w.lib 16).1.2] }

/-- The world after the diagnostic of a failed draw. -/
def drawFailed {σ : Type} (P : Provider σ) (w : World σ) : World σ :=
  { (crypto_get_error_str P w).2 with
    err := (crypto_get_error_str P w).2.err ++
      ["Failed to read random bytes: `" ++ (crypto_get_error_str P w).1 ++ "`.\n"] }

/-- The array `randBuf` after the draw that the provider answers in the world
`w`, when it held `rb` before. -/
def drawBuf {σ : Type} (P : Provider σ) (rb : List Nat) (w : World σ) : List Nat :=
  fillBuf rb 16 (P.randBytes w.lib 16).1.2

/-- The token of the draw that the provider answers in the world `w`, when
`randBuf` held `rb` before. -/
def drawToken {σ : Type} (P : Provider σ) (rb : List Nat) (w : World σ) : List Char :=
  tokenCode (drawBuf P rb w) 0

/-- The status that the provider gives to a draw made in the world `w`. -/
def drawStatus {σ : Type} (P : Provider σ) (w : World σ) : Int := (P.randBytes w.lib 16).1.1

/-- The string of three tokens joined by `/`. -/
def join3 (t1 t2 t3 : List Char) : List Char := t1 ++ '/' :: (t2 ++ '/' :: t3)

/-- The three tokens of a run that starts in the world `w` with `rb` in
`randBuf`. -/
def runTokens {σ : Type} (P : Provider σ) (rb : List Nat) (w : World σ) : List (List Char) :=
  [drawToken P rb w, drawToken P (drawBuf P rb w) (afterDraw P w),
    drawToken P (drawBuf P (drawBuf P rb w) (afterDraw P w)) (afterDraw P (afterDraw P w))]

/-- Status and C string left in the destination by a run of
`generate_pool_secret`, when the run is not a fault. -/
def outcome {σ : Type} (x : Except Fault (Int × World σ × List Char)) : Option (Int × List Char) :=
  match x with
  | .ok (r, _, m) => some (r, cstr m)
  | .error _ => none

/-- A call to `RAND_bytes`. -/
def Call.isDraw : Call → Bool
  | .randBytes _ _ _ => true
  | _ => false

/-- A call to `RAND_bytes` that did not return 1. -/
def Call.isFailedDraw : Call → Bool
  | .randBytes _ ret _ => decide (ret ≠ 1)
  | _ => false

/-- The array `buf` of `main` before anything is stored in it. -/
def mainBuf (stack : Nat → Char) : List Char := (List.range BUF_SIZE).map stack

/-- Draw `k` succeeds for `k < 2` and the third draw fails. -/
def drawsThirdFails (k : Nat) : Int × List Nat :=
  if k < 2 then draws4 k else (0, List.replicate 16 0)

/-- Whether two consecutive characters of a string are both `/`. -/
def adjacentSlash : List Char → Bool
  | a :: b :: rest => (a == '/' && b == '/') || adjacentSlash (b :: rest)
  | _ => false

/-- The secret of the scripted provider `scripted 1 32 draws4`. -/
def demoSecret : List Char :=
  ("00010203-0405-0607-0809-0a0b0c0d0e0f/10111213-1415-1617-1819-1a1b1c1d1e1f/"
    ++ "20212223-2425-2627-2829-2a2b2c2d2e2f").toList

/-- A buffer of 128 bytes, all `z` at first, after the run that leaves
`demoSecret` in it. -/
def demoBuf : List Char := demoSecret ++ NUL :: List.replicate 17 'z'

/-- The world after the three draws of that run. -/
def demoWorld : World Nat :=
  { lib := 3
    calls := [Call.randBytes 16 1 (draws4 0).2, Call.randBytes 16 1 (draws4 1).2,
      Call.randBytes 16 1 (draws4 2).2]
    out := []
    err := [] }

/-! ### Decoding, call kinds and the plain iteration -/

/-- The value of a lowercase hexadecimal digit. -/
def hexVal (c : Char) : Nat := "0123456789abcdef".toList.indexOf c

/-- The bytes of a string of hexadecimal digits, two digits per byte, high
nibble first. -/
def unhex : List Char → List Nat
  | h :: l :: rest => (16 * hexVal h + hexVal l) :: unhex rest
  | _ => []

/-- Hex-decoding of a token with its dashes removed. -/
def decode (tok : List Char) : List Nat := unhex (tok.filter fun c => c ≠ '-')

/-- The record of the draw made in the world `w`. -/
def drawCall {σ : Type} (P : Provider σ) (w : World σ) : Call :=
  Call.randBytes 16 (drawStatus P w) (P.randBytes w.lib 16).1.2

/-- The records of the two calls of `crypto_get_error_str` made in the world
`w`. -/
def errorCalls {σ : Type} (P : Provider σ) (w : World σ) : List Call :=
  [Call.getError (P.getError w.lib).1,
    Call.getErrorString (P.getError w.lib).1
      (P.getErrorString (P.getError w.lib).2 (P.getError w.lib).1).1]

/-- A call to `FIPS_mode_set`. -/
def Call.isModeSet : Call → Bool
  | .fipsModeSet _ _ => true
  | _ => false

/-- A call to `RAND_load_file`. -/
def Call.isSeed : Call → Bool
  | .randLoadFile _ _ _ => true
  | _ => false

/-- The plain iteration that the specification proposes in place of the loop
entered by `goto`: `n` iterations are left and `i` is the index of the next
one; an iteration emits the separator when `i > 0`, draws 16 bytes into the
buffer `rb`, aborts when the draw fails, and appends the encoded token. -/
def plain_iteration {σ : Type} (P : Provider σ) :
    Nat → Nat → World σ → List Nat → List Char → Int × World σ × List Char
  | 0, _, w, _, s => (0, w, s)
  | n + 1, i, w, rb, s =>
    let s1 := if i > 0 then s ++ ['/'] else s
    let ((r, bytes), l1) := P.randBytes w.lib 16
    let w1 : World σ := { w with lib := l1, calls := w.calls ++ [Call.randBytes 16 r bytes] }
    if r ≠ 1 then (-1, w1, s1)
    else plain_iteration P n (i + 1) w1 (fillBuf rb 16 bytes)
      (s1 ++ encode (fillBuf rb 16 bytes))

/-- The plain iteration over the fixed count `count`, from the empty string
and the buffer `randBuf0 junk`. -/
def generate_plain {σ : Type} (P : Provider σ) (count : Nat) (junk : Nat → Nat) (w : World σ) :
    Int × World σ × List Char :=
  plain_iteration P count 0 w (randBuf0 junk) []

theorem store_at_end (out rest : List Char) (c c1 : Char) (m : List Char) (p : Nat)
    (hm : m = out ++ c :: rest) (hp : p = out.length) :
    store m p c1 = .ok (out ++ c1 :: rest) := by
  subst hm hp
  simp [store]

theorem storeAll_at_end (cs : List Char) :
    ∀ (out t : List Char), cs.length ≤ t.length →
      storeAll (out ++ t) out.length cs = .ok (out ++ cs ++ t.drop cs.length) := by
  induction cs with
  | nil => intro out t _; simp [storeAll]
  | cons c cs ih =>
    intro out t h
    cases t with
    | nil => simp at h
    | cons x t =>
      simp only [List.length_cons, Nat.add_le_add_iff_right] at h
      have h1 := ih (out ++ [c]) t h
      simp only [List.length_append, List.length_singleton, List.append_assoc,
        List.singleton_append] at h1
      simp [storeAll, store, h1]

theorem toUChar_readChar (b : Nat) : toUChar (readChar b) = b % 256 := by
  unfold toUChar readChar
  split <;> omega

set_option maxRecDepth 100000 in
theorem fmt_02x_byte : ∀ v, v < 256 → fmt_02x v = [hexDigit (v / 16), hexDigit (v % 16)] := by
  decide

theorem fmt_02x_length (b : Nat) : (fmt_02x (toUChar (readChar b))).length = 2 := by
  rw [toUChar_readChar, fmt_02x_byte _ (Nat.mod_lt _ (by decide))]
  rfl

theorem hexCode_length (bs : List Nat) : (hexCode bs).length = 2 * bs.length := by
  induction bs with
  | nil => rfl
  | cons b bs ih =>
    simp only [hexCode, List.flatMap_cons, List.length_append, List.length_cons] at ih ⊢
    rw [ih, fmt_02x_length]; omega

theorem sprintf_02x_at_end (out t : List Char) (b : Nat) (h : 3 ≤ t.length) :
    sprintf_02x (out ++ t) out.length (toUChar (readChar b))
      = .ok (out ++ fmt_02x (toUChar (readChar b)) ++ NUL :: t.drop 3) := by
  unfold sprintf_02x
  have hl := fmt_02x_length b
  rw [storeAll_at_end _ out t (by simp [hl]; omega)]
  simp [hl]

theorem load_ok (src : List Nat) (k : Nat) (h : k < src.length) :
    load src k = .ok (src.getD k 0) := by
  simp [load, List.getD, List.getElem?_eq_getElem h]

theorem drop_take_succ (src : List Nat) (k n : Nat) (h : k < src.length) :
    (src.drop k).take (n + 1) = src.getD k 0 :: (src.drop (k + 1)).take n := by
  rw [List.drop_eq_getElem_cons h, List.take_succ_cons]
  simp [List.getD, List.getElem?_eq_getElem h]

theorem format_to_hex_loop_spec (src : List Nat) (s size : Nat) (hs : s + size ≤ src.length) :
    ∀ (fuel i : Nat) (out t : List Char), i + fuel = size →
      (fuel ≠ 0 → 2 * fuel + 1 ≤ t.length) →
      format_to_hex_loop src s size fuel i (out ++ t) out.length
        = .ok (out ++ hexCode ((src.drop (s + i)).take fuel) ++ nulTail fuel t, size * 2) := by
  intro fuel
  induction fuel with
  | zero =>
    intro i out t hi _
    have : ¬ i < size := by omega
    have hi2 : i = size := by omega
    rw [format_to_hex_loop]
    simp [this, hexCode, nulTail, hi2]
  | succ fuel ih =>
    intro i out t hi ht
    have hlt : i < size := by omega
    have ht1 : 2 * (fuel + 1) + 1 ≤ t.length := ht (by omega)
    rw [format_to_hex_loop]
    simp only [hlt, if_true]
    rw [load_ok src (s + i) (by omega)]
    simp only []
    rw [sprintf_02x_at_end out t _ (by omega)]
    simp only []
    have hlen : out.length + 2 = (out ++ fmt_02x (toUChar (readChar (src.getD (s + i) 0)))).length
        := by
      rw [List.length_append, fmt_02x_length]
    rw [hlen, ih (i + 1) _ (NUL :: t.drop 3) (by omega)
      (by intro _; simp only [List.length_cons, List.length_drop]; omega)]
    rw [drop_take_succ src (s + i) fuel (by omega)]
    congr 2
    simp only [hexCode, List.flatMap_cons, List.append_assoc, nulTail]
    congr 2
    have e1 : s + (i + 1) = s + i + 1 := by omega
    rw [e1]
    congr 1
    by_cases hf : fuel = 0
    · simp [hf]
    · simp only [hf, if_false, Nat.succ_ne_zero, List.drop_succ_cons, List.drop_drop]
      congr 2
      omega

theorem format_to_hex_spec (src : List Nat) (s size : Nat) (out t m : List Char) (d : Nat)
    (hs : s + size ≤ src.length) (hpos : 0 < size) (ht : 2 * size + 1 ≤ t.length)
    (hm : m = out ++ t) (hd : d = out.length) :
    format_to_hex src s size m d
      = .ok (out ++ hexCode ((src.drop s).take size) ++ NUL :: t.drop (2 * size + 1), size * 2) :=
          by
  subst hm hd
  unfold format_to_hex
  rw [format_to_hex_loop_spec src s size hs size 0 out t (by omega) (fun _ => ht)]
  have : size ≠ 0 := by omega
  simp [nulTail, this]

theorem group_spec (src : List Nat) (s size : Nat) (out t m : List Char) (p : Nat)
    (hs : s + size ≤ src.length) (hpos : 0 < size) (ht : 2 * size + 1 ≤ t.length)
    (hm : m = out ++ t) (hp : p = out.length) :
    (match format_to_hex src s size m p with
      | .error e => .error e
      | .ok (m1, n) =>
        match store m1 (p + n) '-' with
        | .error e => .error e
        | .ok m2 => generate_uuid_loop src fuel i1 s1 m2 (p + n + 1))
    = generate_uuid_loop src fuel i1 s1
        ((out ++ hexCode ((src.drop s).take size) ++ ['-']) ++ t.drop (2 * size + 1))
        (out ++ hexCode ((src.drop s).take size) ++ ['-']).length := by
  rw [format_to_hex_spec src s size out t m p hs hpos ht hm hp]
  simp only []
  rw [store_at_end (out ++ hexCode ((src.drop s).take size)) (t.drop (2 * size + 1)) NUL '-' _ _ rfl
    (by rw [hp, List.length_append, hexCode_length, List.length_take, List.length_drop]; omega)]
  simp only [List.length_append, List.length_singleton, List.append_assoc, List.singleton_append]
  congr 1
  rw [hp, hexCode_length, List.length_take, List.length_drop]
  omega

theorem generate_uuid_spec (src : List Nat) (s : Nat) (out t m : List Char) (d : Nat)
    (hs : s + 16 ≤ src.length) (ht : 37 ≤ t.length) (hm : m = out ++ t) (hd : d = out.length) :
    generate_uuid src s m d = .ok (out ++ tokenCode src s ++ NUL :: t.drop 37, 36) := by
  unfold generate_uuid
  simp only [sizes, List.length_cons, List.length_nil]
  rw [generate_uuid_loop]
  simp only [sizes, List.length_cons, List.length_nil, List.getD_cons_zero, List.getD_cons_succ]
  simp only [show 0 < 0 + 1 + 1 + 1 + 1 from by decide, if_true]
  rw [group_spec src s 4 out t m d (by omega) (by decide) (by omega) hm hd]
  rw [generate_uuid_loop]
  simp only [sizes, List.length_cons, List.length_nil, List.getD_cons_zero, List.getD_cons_succ,
    show 0 + 1 < 0 + 1 + 1 + 1 + 1 from by decide, if_true]
  rw [group_spec src (s + 4) 2 _ (t.drop (2 * 4 + 1)) _ _ (by omega) (by decide)
    (by rw [List.length_drop]; omega) rfl rfl]
  rw [generate_uuid_loop]
  simp only [sizes, List.length_cons, List.length_nil, List.getD_cons_zero, List.getD_cons_succ,
    show 0 + 1 + 1 < 0 + 1 + 1 + 1 + 1 from by decide, if_true]
  rw [group_spec src (s + 4 + 2) 2 _ ((t.drop (2 * 4 + 1)).drop (2 * 2 + 1)) _ _ (by omega)
    (by decide) (by rw [List.length_drop, List.length_drop]; omega) rfl rfl]
  rw [generate_uuid_loop]
  simp only [sizes, List.length_cons, List.length_nil, List.getD_cons_zero, List.getD_cons_succ,
    show 0 + 1 + 1 + 1 < 0 + 1 + 1 + 1 + 1 from by decide, if_true]
  rw [group_spec src (s + 4 + 2 + 2) 2 _ (((t.drop (2 * 4 + 1)).drop (2 * 2 + 1)).drop (2 * 2 + 1))
    _ _ (by omega) (by decide)
    (by rw [List.length_drop, List.length_drop, List.length_drop]; omega) rfl rfl]
  rw [generate_uuid_loop]
  simp only [sizes, List.length_cons, List.length_nil,
    show ¬ 0 + 1 + 1 + 1 + 1 < 0 + 1 + 1 + 1 + 1 from by decide, if_false]
  rw [format_to_hex_spec src (s + 4 + 2 + 2 + 2) 6 _
    ((((t.drop (2 * 4 + 1)).drop (2 * 2 + 1)).drop (2 * 2 + 1)).drop (2 * 2 + 1)) _ _ (by omega)
    (by decide) (by simp only [List.length_drop]; omega) rfl rfl]
  have h4 : min 4 (src.length - s) = 4 := by omega
  have h2a : min 2 (src.length - (s + 4)) = 2 := by omega
  have h2b : min 2 (src.length - (s + 4 + 2)) = 2 := by omega
  have h2c : min 2 (src.length - (s + 4 + 2 + 2)) = 2 := by omega
  simp only [tokenCode, List.length_append, List.length_singleton, List.length_cons,
    List.length_nil, hexCode_length, List.nil_append,
    List.length_take, List.length_drop, List.drop_drop, List.append_assoc, List.singleton_append,
    List.cons_append, h4, h2a, h2b, h2c, hd]
  congr 1
  rw [Prod.mk.injEq]
  constructor
  · rfl
  · omega

theorem uncons_of_length {α : Type} (n : Nat) (l : List α) (h : l.length = n + 1) :
    ∃ x t, l = x :: t ∧ t.length = n := by
  cases l with
  | nil => cases h
  | cons x t => exact ⟨x, t, rfl, Nat.succ.inj h⟩

theorem sixteen_bytes {α : Type} (l : List α) (h : l.length = 16) :
    ∃ x0 x1 x2 x3 x4 x5 x6 x7 y0 y1 y2 y3 y4 y5 y6 y7,
      l = [x0, x1, x2, x3, x4, x5, x6, x7, y0, y1, y2, y3, y4, y5, y6, y7] := by
  obtain ⟨x0, t0, e0, h0⟩ := uncons_of_length 15 l h
  obtain ⟨x1, t1, e1, h1⟩ := uncons_of_length 14 t0 h0
  obtain ⟨x2, t2, e2, h2⟩ := uncons_of_length 13 t1 h1
  obtain ⟨x3, t3, e3, h3⟩ := uncons_of_length 12 t2 h2
  obtain ⟨x4, t4, e4, h4⟩ := uncons_of_length 11 t3 h3
  obtain ⟨x5, t5, e5, h5⟩ := uncons_of_length 10 t4 h4
  obtain ⟨x6, t6, e6, h6⟩ := uncons_of_length 9 t5 h5
  obtain ⟨x7, t7, e7, h7⟩ := uncons_of_length 8 t6 h6
  obtain ⟨y0, t8, e8, h8⟩ := uncons_of_length 7 t7 h7
  obtain ⟨y1, t9, e9, h9⟩ := uncons_of_length 6 t8 h8
  obtain ⟨y2, t10, e10, h10⟩ := uncons_of_length 5 t9 h9
  obtain ⟨y3, t11, e11, h11⟩ := uncons_of_length 4 t10 h10
  obtain ⟨y4, t12, e12, h12⟩ := uncons_of_length 3 t11 h11
  obtain ⟨y5, t13, e13, h13⟩ := uncons_of_length 2 t12 h12
  obtain ⟨y6, t14, e14, h14⟩ := uncons_of_length 1 t13 h13
  obtain ⟨y7, t15, e15, h15⟩ := uncons_of_length 0 t14 h14
  rw [e0, e1, e2, e3, e4, e5, e6, e7, e8, e9, e10, e11, e12, e13, e14, e15, List.length_eq_zero.mp
      h15]
  exact ⟨_, _, _, _, _, _, _, _, _, _, _, _, _, _, _, _, rfl⟩

theorem isLowerHex_hexDigit : ∀ n, n < 16 → isLowerHex (hexDigit n) = true := by
  decide

theorem tokenCode_length (src : List Nat) (s : Nat) (hs : s + 16 ≤ src.length) :
    (tokenCode src s).length = 36 := by
  simp only [tokenCode, List.length_append, List.length_cons, hexCode_length, List.length_take,
    List.length_drop]
  omega

/-- The text of `generate_uuid` for the bytes of `src` read modulo 256. -/
theorem tokenCode_eq_encode_mod (src : List Nat) (h : src.length = 16) :
    tokenCode src 0 = encode (src.map fun b => b % 256) := by
  obtain ⟨x0, x1, x2, x3, x4, x5, x6, x7, y0, y1, y2, y3, y4, y5, y6, y7, rfl⟩ :=
    sixteen_bytes src h
  simp only [tokenCode, encode, slice, hexCode, hex, toUChar_readChar]
  simp [fmt_02x_byte _ (Nat.mod_lt _ (show 0 < 256 by decide))]

theorem isLowerHex_hi (a : Nat) : isLowerHex (hexDigit (a % 256 / 16)) = true :=
  isLowerHex_hexDigit _ (by omega)

theorem isLowerHex_lo (a : Nat) : isLowerHex (hexDigit (a % 256 % 16)) = true :=
  isLowerHex_hexDigit _ (by omega)

theorem isToken_encode_mod (src : List Nat) (h : src.length = 16) :
    isToken (encode (src.map fun b => b % 256)) = true := by
  obtain ⟨x0, x1, x2, x3, x4, x5, x6, x7, y0, y1, y2, y3, y4, y5, y6, y7, rfl⟩ :=
    sixteen_bytes src h
  simp [isToken, encode, slice, hex, isTokenChar, List.range_succ, isLowerHex_hi, isLowerHex_lo]

theorem generate_uuid_at (src : List Nat) (s : Nat) (m : List Char) (d : Nat)
    (hs : s + 16 ≤ src.length) (hd : d + 37 ≤ m.length) :
    generate_uuid src s m d
      = .ok (m.take d ++ tokenCode src s ++ NUL :: m.drop (d + 37), 36) := by
  rw [generate_uuid_spec src s (m.take d) (m.drop d) m d hs
    (by rw [List.length_drop]; omega) (List.take_append_drop d m).symm
    (by rw [List.length_take]; omega)]
  rw [List.drop_drop]

theorem written_at (out tok rest : List Char) (d n : Nat) (hd : d = out.length)
    (hn : n = tok.length) : written (out ++ tok ++ rest) d n = tok := by
  subst hd hn
  simp [written]

/-- C1: for every 16-byte source buffer (bytes of any value, read through a
signed `char` and cast to `unsigned char`) and every destination with room for
the token and the NUL of the last `sprintf`, `generate_uuid` returns 36 and the
36 characters it stored at `dest` have a dash at indices 8, 13, 18 and 23 and a
lowercase hexadecimal digit everywhere else. -/
theorem generate_uuid_writes_token (src : List Nat) (m : List Char) (d : Nat)
    (hsrc : src.length = 16) (hroom : d + 37 ≤ m.length) :
    ∃ m1, generate_uuid src 0 m d = .ok (m1, 36) ∧ (written m1 d 36).length = 36 ∧
      isToken (written m1 d 36) = true := by
  refine ⟨_, generate_uuid_at src 0 m d (by omega) hroom, ?_⟩
  have hw : written (m.take d ++ tokenCode src 0 ++ NUL :: m.drop (d + 37)) d 36
      = tokenCode src 0 :=
    written_at _ _ _ _ _ (by rw [List.length_take]; omega)
      (by rw [tokenCode_length src 0 (by omega)])
  rw [hw]
  exact ⟨tokenCode_length src 0 (by omega),
    by rw [tokenCode_eq_encode_mod src hsrc]; exact isToken_encode_mod src hsrc⟩

set_option maxRecDepth 100000 in
theorem generate_uuid_writes_token_witness :
    ∃ m1, generate_uuid [0, 127, 128, 255, 16, 32, 200, 9, 10, 171, 205, 239, 1, 2, 3, 254] 0
        (List.replicate 40 'z') 2 = .ok (m1, 36) ∧ (written m1 2 36).length = 36 ∧
      isToken (written m1 2 36) = true :=
  generate_uuid_writes_token [0, 127, 128, 255, 16, 32, 200, 9, 10, 171, 205, 239, 1, 2, 3, 254]
    (List.replicate 40 'z') 2 (by decide) (by decide)

theorem map_mod_byte (b : List Nat) (hb : ∀ x ∈ b, x < 256) : (b.map fun x => x % 256) = b := by
  induction b with
  | nil => rfl
  | cons a b ih =>
    rw [List.map_cons, ih fun x hx => hb x (List.mem_cons_of_mem _ hx),
      Nat.mod_eq_of_lt (hb a (List.mem_cons_self _ _))]

/-- C2: for every buffer `b` of sixteen bytes, `generate_uuid` returns 36 and
the text it stored equals the reference `encode b`, that is
`hex b[0..4] - hex b[4..6] - hex b[6..8] - hex b[8..10] - hex b[10..16]` with two
lowercase digits per byte, high nibble first. -/
theorem generate_uuid_eq_encode (b : List Nat) (m : List Char) (d : Nat)
    (hlen : b.length = 16) (hbyte : ∀ x ∈ b, x < 256) (hroom : d + 37 ≤ m.length) :
    ∃ m1, generate_uuid b 0 m d = .ok (m1, 36) ∧ written m1 d 36 = encode b := by
  refine ⟨_, generate_uuid_at b 0 m d (by omega) hroom, ?_⟩
  rw [written_at _ _ _ _ _ (by rw [List.length_take]; omega)
    (by rw [tokenCode_length b 0 (by omega)])]
  rw [tokenCode_eq_encode_mod b hlen, map_mod_byte b hbyte]

set_option maxRecDepth 100000 in
theorem generate_uuid_eq_encode_witness :
    ∃ m1, generate_uuid (List.range 16) 0 (List.replicate 37 'z') 0 = .ok (m1, 36) ∧
      written m1 0 36 = "00010203-0405-0607-0809-0a0b0c0d0e0f".toList := by
  have h := generate_uuid_eq_encode (List.range 16) (List.replicate 37 'z') 0 (by decide)
    (by decide) (by decide)
  have e : encode (List.range 16) = "00010203-0405-0607-0809-0a0b0c0d0e0f".toList := by decide
  rw [e] at h
  exact h

theorem fillBuf_length (old : List Nat) (num : Nat) (bytes : List Nat) :
    (fillBuf old num bytes).length = num := by
  simp [fillBuf]

theorem drawBuf_length {σ : Type} (P : Provider σ) (rb : List Nat) (w : World σ) :
    (drawBuf P rb w).length = 16 :=
  fillBuf_length _ _ _

theorem start_step {σ : Type} (P : Provider σ) (fuel i : Nat) (w : World σ) (rb : List Nat)
    (out t m : List Char) (dest : Nat) (hm : m = out ++ t) (hd : dest = out.length)
    (ht : 37 ≤ t.length) :
    generate_pool_secret_start P (fuel + 1) i w rb m dest =
      if (P.randBytes w.lib 16).1.1 ≠ 1 then .ok (-1, drawFailed P (afterDraw P w), m)
      else if i + 1 < 3 then
        generate_pool_secret_start P fuel (i + 1) (afterDraw P w) (drawBuf P rb w)
          ((out ++ drawToken P rb w ++ ['/']) ++ t.drop 37)
          (out ++ drawToken P rb w ++ ['/']).length
      else .ok (0, afterDraw P w, out ++ drawToken P rb w ++ NUL :: t.drop 37) := by
  rw [generate_pool_secret_start]
  by_cases hr : (P.randBytes w.lib 16).1.1 ≠ 1
  · simp only [hr, if_true, ne_eq, not_false_eq_true]
    rfl
  · simp only [hr, if_false, ne_eq, not_false_eq_true]
    rw [generate_uuid_spec _ 0 out t m dest (by rw [fillBuf_length]) ht hm hd]
    simp only []
    have hlen : dest + 36 = (out ++ drawToken P rb w).length := by
      rw [List.length_append, drawToken, tokenCode_length _ 0 (by rw [drawBuf_length]), hd]
    by_cases hi : i + 1 < 3
    · simp only [hi, if_true]
      erw [store_at_end (out ++ drawToken P rb w) (t.drop 37) NUL '/' _ _ rfl hlen]
      simp only [List.append_assoc, List.singleton_append, List.length_append,
        List.length_cons, List.length_nil]
      rw [hlen, List.length_append]
      rfl
    · simp only [hi, if_false]
      erw [store_at_end (out ++ drawToken P rb w) (t.drop 37) NUL NUL _ _ rfl hlen]
      rfl

theorem generate_pool_secret_start_eq {σ : Type} (P : Provider σ) (rb : List Nat) (w : World σ)
    (m : List Char) (k : Nat) (hm : 111 ≤ m.length) :
    generate_pool_secret_start P (k + 3) 0 w rb m 0 =
      if drawStatus P w ≠ 1 then .ok (-1, drawFailed P (afterDraw P w), m)
      else if drawStatus P (afterDraw P w) ≠ 1 then
        .ok (-1, drawFailed P (afterDraw P (afterDraw P w)),
          drawToken P rb w ++ '/' :: m.drop 37)
      else if drawStatus P (afterDraw P (afterDraw P w)) ≠ 1 then
        .ok (-1, drawFailed P (afterDraw P (afterDraw P (afterDraw P w))),
          drawToken P rb w ++ '/' :: (drawToken P (drawBuf P rb w) (afterDraw P w) ++ '/' :: m.drop
              74))
      else
        .ok (0, afterDraw P (afterDraw P (afterDraw P w)),
          drawToken P rb w ++ '/' :: (drawToken P (drawBuf P rb w) (afterDraw P w) ++ '/' ::
            (drawToken P (drawBuf P (drawBuf P rb w) (afterDraw P w)) (afterDraw P (afterDraw P w))
                ++ NUL :: m.drop 111))) := by
  rw [start_step P (k + 2) 0 w rb [] m m 0 rfl rfl (by omega)]
  by_cases h1 : drawStatus P w ≠ 1
  · have h1a : (P.randBytes w.lib 16).1.1 ≠ 1 := h1
    simp only [h1, h1a, if_true, ne_eq, not_false_eq_true]
  · have h1a : ¬ (P.randBytes w.lib 16).1.1 ≠ 1 := h1
    simp only [h1, h1a, if_false, show 0 + 1 < 3 from by decide, if_true]
    rw [start_step P (k + 1) (0 + 1) (afterDraw P w) _ _ (m.drop 37) _ _ rfl rfl
      (by rw [List.length_drop]; omega)]
    by_cases h2 : drawStatus P (afterDraw P w) ≠ 1
    · have h2a : (P.randBytes (afterDraw P w).lib 16).1.1 ≠ 1 := h2
      simp only [h2, h2a, if_true, ne_eq, not_false_eq_true, List.nil_append, List.append_assoc,
        List.singleton_append]
    · have h2a : ¬ (P.randBytes (afterDraw P w).lib 16).1.1 ≠ 1 := h2
      simp only [h2, h2a, if_false, show 0 + 1 + 1 < 3 from by decide, if_true]
      rw [start_step P k (0 + 1 + 1) (afterDraw P (afterDraw P w)) _ _ ((m.drop 37).drop 37) _ _
        rfl rfl (by rw [List.length_drop, List.length_drop]; omega)]
      by_cases h3 : drawStatus P (afterDraw P (afterDraw P w)) ≠ 1
      · have h3a : (P.randBytes (afterDraw P (afterDraw P w)).lib 16).1.1 ≠ 1 := h3
        simp only [h3, h3a, if_true, ne_eq, not_false_eq_true, List.nil_append,
          List.append_assoc, List.singleton_append, List.drop_drop, List.cons_append]
      · have h3a : ¬ (P.randBytes (afterDraw P (afterDraw P w)).lib 16).1.1 ≠ 1 := h3
        simp only [h3, h3a, if_false, show ¬ 0 + 1 + 1 + 1 < 3 from by decide,
          List.nil_append, List.append_assoc, List.singleton_append, List.drop_drop,
          List.cons_append]

theorem generate_pool_secret_eq {σ : Type} (P : Provider σ) (junk : Nat → Nat) (w : World σ)
    (m : List Char)
    (hm : 111 ≤ m.length) :
    generate_pool_secret P junk w m =
      if drawStatus P w ≠ 1 then .ok (-1, drawFailed P (afterDraw P w), m)
      else if drawStatus P (afterDraw P w) ≠ 1 then
        .ok (-1, drawFailed P (afterDraw P (afterDraw P w)),
          drawToken P (randBuf0 junk) w ++ '/' :: m.drop 37)
      else if drawStatus P (afterDraw P (afterDraw P w)) ≠ 1 then
        .ok (-1, drawFailed P (afterDraw P (afterDraw P (afterDraw P w))),
          drawToken P (randBuf0 junk) w ++ '/' ::
              (drawToken P (drawBuf P (randBuf0 junk) w) (afterDraw P w) ++ '/' :: m.drop 74))
      else
        .ok (0, afterDraw P (afterDraw P (afterDraw P w)),
          drawToken P (randBuf0 junk) w ++ '/' ::
              (drawToken P (drawBuf P (randBuf0 junk) w) (afterDraw P w) ++ '/' ::
            (drawToken P (drawBuf P (drawBuf P (randBuf0 junk) w) (afterDraw P w))
                (afterDraw P (afterDraw P w)) ++ NUL :: m.drop 111))) :=
  generate_pool_secret_start_eq P (randBuf0 junk) w m 0 hm

/-- The fuel of `generate_pool_secret` is enough: more fuel gives the same run. -/
theorem generate_pool_secret_fuel {σ : Type} (P : Provider σ) (junk : Nat → Nat) (w : World σ)
    (m : List Char)
    (k : Nat) (hm : 111 ≤ m.length) :
    generate_pool_secret_start P (k + 3) 0 w (randBuf0 junk) m 0
      = generate_pool_secret P junk w m := by
  rw [generate_pool_secret_start_eq P (randBuf0 junk) w m k hm,
    generate_pool_secret_eq P junk w m hm]

theorem mem_hexCode (bs : List Nat) (c : Char) (h : c ∈ hexCode bs) : isLowerHex c = true := by
  simp only [hexCode, List.mem_flatMap] at h
  obtain ⟨b, _, hc⟩ := h
  rw [toUChar_readChar, fmt_02x_byte _ (Nat.mod_lt _ (show 0 < 256 by decide))] at hc
  simp only [List.mem_cons, List.mem_singleton, List.not_mem_nil, or_false] at hc
  rcases hc with rfl | rfl
  · exact isLowerHex_hi b
  · exact isLowerHex_lo b

theorem mem_tokenCode (src : List Nat) (s : Nat) (c : Char) (h : c ∈ tokenCode src s) :
    isLowerHex c = true ∨ c = '-' := by
  simp only [tokenCode, List.mem_append, List.mem_cons] at h
  rcases h with h | h | h | h | h | h | h | h | h
  · exact Or.inl (mem_hexCode _ c h)
  · exact Or.inr h
  · exact Or.inl (mem_hexCode _ c h)
  · exact Or.inr h
  · exact Or.inl (mem_hexCode _ c h)
  · exact Or.inr h
  · exact Or.inl (mem_hexCode _ c h)
  · exact Or.inr h
  · exact Or.inl (mem_hexCode _ c h)

theorem tokenCode_ne_nul (src : List Nat) (s : Nat) (c : Char) (h : c ∈ tokenCode src s) :
    c ≠ NUL := by
  rcases mem_tokenCode src s c h with h1 | h1
  · intro e; rw [e] at h1; revert h1; decide
  · rw [h1]; decide

theorem tokenCode_ne_slash (src : List Nat) (s : Nat) (c : Char) (h : c ∈ tokenCode src s) :
    c ≠ '/' := by
  rcases mem_tokenCode src s c h with h1 | h1
  · intro e; rw [e] at h1; revert h1; decide
  · rw [h1]; decide

theorem cstr_append_nul (s rest : List Char) (h : ∀ c ∈ s, c ≠ NUL) :
    cstr (s ++ NUL :: rest) = s := by
  induction s with
  | nil => simp [cstr]
  | cons a s ih =>
    have ha : a ≠ NUL := h a (List.mem_cons_self _ _)
    have ih1 := ih fun c hc => h c (List.mem_cons_of_mem _ hc)
    simp only [cstr, List.cons_append, List.takeWhile_cons] at ih1 ⊢
    rw [ih1]
    simp [ha]

theorem fillBuf_eq (old : List Nat) (n : Nat) (d : List Nat) (hlen : d.length = n)
    (hb : ∀ x ∈ d, x < 256) : fillBuf old n d = d := by
  apply List.ext_getElem
  · simp [fillBuf, hlen]
  · intro k h1 h2
    simp only [fillBuf, List.getElem_map, List.getElem_range, List.getD_eq_getElem?_getD,
      List.getElem?_eq_getElem h2, Option.getD_some, h2, if_true]
    exact Nat.mod_eq_of_lt (hb _ (List.getElem_mem _))

theorem drawToken_eq_encode {σ : Type} (P : Provider σ) (rb : List Nat) (w : World σ) (r : Int)
    (d : List Nat)
    (l : σ) (h : P.randBytes w.lib 16 = ((r, d), l)) (hlen : d.length = 16)
    (hb : ∀ x ∈ d, x < 256) : drawToken P rb w = encode d := by
  rw [drawToken, drawBuf, h, fillBuf_eq rb 16 d hlen hb, tokenCode_eq_encode_mod d hlen,
    map_mod_byte d hb]

theorem generate_pool_secret_ok {σ : Type} (P : Provider σ) (junk : Nat → Nat) (w w1 : World σ)
    (m m1 : List Char) (r : Int) (hm : 111 ≤ m.length)
    (h : generate_pool_secret P junk w m = .ok (r, w1, m1)) (hr : r ≠ -1) :
    r = 0 ∧ w1 = afterDraw P (afterDraw P (afterDraw P w)) ∧
      m1 = join3 (drawToken P (randBuf0 junk) w)
          (drawToken P (drawBuf P (randBuf0 junk) w) (afterDraw P w))
          (drawToken P (drawBuf P (drawBuf P (randBuf0 junk) w) (afterDraw P w))
              (afterDraw P (afterDraw P w))) ++ NUL :: m.drop 111 ∧
      drawStatus P w = 1 ∧ drawStatus P (afterDraw P w) = 1 ∧
      drawStatus P (afterDraw P (afterDraw P w)) = 1 := by
  rw [generate_pool_secret_eq P junk w m hm] at h
  split at h
  · simp only [Except.ok.injEq, Prod.mk.injEq] at h; exact absurd h.1.symm hr
  · split at h
    · simp only [Except.ok.injEq, Prod.mk.injEq] at h; exact absurd h.1.symm hr
    · split at h
      · simp only [Except.ok.injEq, Prod.mk.injEq] at h; exact absurd h.1.symm hr
      · simp only [Except.ok.injEq, Prod.mk.injEq] at h
        obtain ⟨h0, h1, h2⟩ := h
        refine ⟨h0.symm, h1.symm, ?_, by tauto, by tauto, by tauto⟩
        rw [← h2]
        simp [join3]

theorem cstr_join3 {σ : Type} (P : Provider σ) (junk : Nat → Nat) (w : World σ) (rest : List Char) :
    cstr (join3 (drawToken P (randBuf0 junk) w)
        (drawToken P (drawBuf P (randBuf0 junk) w) (afterDraw P w))
        (drawToken P (drawBuf P (drawBuf P (randBuf0 junk) w) (afterDraw P w))
            (afterDraw P (afterDraw P w))) ++ NUL :: rest)
      = join3 (drawToken P (randBuf0 junk) w)
          (drawToken P (drawBuf P (randBuf0 junk) w) (afterDraw P w))
        (drawToken P (drawBuf P (drawBuf P (randBuf0 junk) w) (afterDraw P w))
            (afterDraw P (afterDraw P w))) := by
  apply cstr_append_nul
  intro c hc
  simp only [join3, List.mem_append, List.mem_cons] at hc
  rcases hc with h | h | h | h | h
  · exact tokenCode_ne_nul _ _ c h
  · rw [h]; decide
  · exact tokenCode_ne_nul _ _ c h
  · rw [h]; decide
  · exact tokenCode_ne_nul _ _ c h

theorem encode_length (d : List Nat) (hlen : d.length = 16) : (encode d).length = 36 := by
  obtain ⟨x0, x1, x2, x3, x4, x5, x6, x7, y0, y1, y2, y3, y4, y5, y6, y7, rfl⟩ :=
    sixteen_bytes d hlen
  rfl

set_option maxRecDepth 100000 in
/-- C3, refuted as stated: with a provider whose draws all succeed and return
four distinct 16-byte sequences, `generate_pool_secret` succeeds with a string of
three tokens and 110 characters, not the four tokens of 147 characters. -/
theorem generate_pool_secret_four_tokens_counterexample :
    outcome (generate_pool_secret (scripted 1 32 draws4) (fun _ => 0) (World.init 0)
        (List.replicate 160 'z'))
        = some (0, ("00010203-0405-0607-0809-0a0b0c0d0e0f/10111213-1415-1617-1819-1a1b1c1d1e1f/"
            ++ "20212223-2425-2627-2829-2a2b2c2d2e2f").toList) ∧
      outcome (generate_pool_secret (scripted 1 32 draws4) (fun _ => 0) (World.init 0)
          (List.replicate 160 'z'))
        ≠ some (0, encode (draws4 0).2 ++ "/".toList ++ encode (draws4 1).2 ++ "/".toList
            ++ encode (draws4 2).2 ++ "/".toList ++ encode (draws4 3).2) ∧
      (List.length <$> Prod.snd <$> outcome (generate_pool_secret (scripted 1 32 draws4)
          (fun _ => 0) (World.init 0) (List.replicate 160 'z'))) ≠ some 147 := by
  decide

/-- C3, amended: when the first three draws succeed and return the 16-byte
sequences `d1`, `d2`, `d3`, `generate_pool_secret` makes exactly these three
draws, returns 0 and leaves the string `encode d1 / encode d2 / encode d3`, of
length exactly 110. -/
theorem generate_pool_secret_joins_three {σ : Type} (P : Provider σ) (junk : Nat → Nat)
    (w : World σ)
    (m : List Char) (d1 d2 d3 : List Nat) (l1 l2 l3 : σ)
    (h1 : P.randBytes w.lib 16 = ((1, d1), l1)) (h2 : P.randBytes l1 16 = ((1, d2), l2))
    (h3 : P.randBytes l2 16 = ((1, d3), l3))
    (hd1 : d1.length = 16 ∧ ∀ x ∈ d1, x < 256) (hd2 : d2.length = 16 ∧ ∀ x ∈ d2, x < 256)
    (hd3 : d3.length = 16 ∧ ∀ x ∈ d3, x < 256) (hm : 111 ≤ m.length) :
    ∃ w1 m1, generate_pool_secret P junk w m = .ok (0, w1, m1) ∧ w1.lib = l3 ∧
      w1.calls = w.calls ++
        [Call.randBytes 16 1 d1, Call.randBytes 16 1 d2, Call.randBytes 16 1 d3] ∧
      cstr m1 = encode d1 ++ "/".toList ++ encode d2 ++ "/".toList ++ encode d3 ∧
      (cstr m1).length = 110 := by
  have e1 : (afterDraw P w).lib = l1 := by simp [afterDraw, h1]
  have h2a : P.randBytes (afterDraw P w).lib 16 = ((1, d2), l2) := by rw [e1, h2]
  have e2 : (afterDraw P (afterDraw P w)).lib = l2 := by
    show (P.randBytes (afterDraw P w).lib 16).2 = l2
    rw [h2a]
  have h3a : P.randBytes (afterDraw P (afterDraw P w)).lib 16 = ((1, d3), l3) := by rw [e2, h3]
  have s1 : drawStatus P w = 1 := by rw [drawStatus, h1]
  have s2 : drawStatus P (afterDraw P w) = 1 := by rw [drawStatus, h2a]
  have s3 : drawStatus P (afterDraw P (afterDraw P w)) = 1 := by rw [drawStatus, h3a]
  have t1 := drawToken_eq_encode P (randBuf0 junk) w 1 d1 l1 h1 hd1.1 hd1.2
  have t2 := drawToken_eq_encode P (drawBuf P (randBuf0 junk) w) (afterDraw P w) 1 d2 l2 h2a hd2.1
      hd2.2
  have t3 := drawToken_eq_encode P (drawBuf P (drawBuf P (randBuf0 junk) w) (afterDraw P w))
    (afterDraw P (afterDraw P w)) 1 d3 l3 h3a hd3.1 hd3.2
  have hc := cstr_join3 P junk w (m.drop 111)
  rw [generate_pool_secret_eq P junk w m hm]
  simp only [s1, s2, s3, ne_eq, not_true_eq_false, if_false]
  refine ⟨_, _, rfl, ?_, ?_, ?_, ?_⟩
  · show (P.randBytes (afterDraw P (afterDraw P w)).lib 16).2 = l3
    rw [h3a]
  · show ((w.calls ++ [_]) ++ [_]) ++ [_] = _
    rw [h3a, h2a, h1]
    simp
  · simp only [join3, List.append_assoc, List.cons_append] at hc
    rw [hc, t1, t2, t3]
    simp
  · simp only [join3, List.append_assoc, List.cons_append] at hc
    rw [hc, t1, t2, t3]
    simp [encode_length, hd1.1, hd2.1, hd3.1]

set_option maxRecDepth 100000 in
theorem generate_pool_secret_joins_three_witness :
    ∃ w1 m1, generate_pool_secret (scripted 1 32 draws4) (fun _ => 0) (World.init 0)
        (List.replicate 128 'z')
        = .ok (0, w1, m1) ∧ w1.lib = 3 ∧
      w1.calls = (World.init 0).calls ++ [Call.randBytes 16 1 (draws4 0).2,
        Call.randBytes 16 1 (draws4 1).2, Call.randBytes 16 1 (draws4 2).2] ∧
      cstr m1 = encode (draws4 0).2 ++ "/".toList ++ encode (draws4 1).2 ++ "/".toList
        ++ encode (draws4 2).2 ∧
      (cstr m1).length = 110 :=
  generate_pool_secret_joins_three (scripted 1 32 draws4) (fun _ => 0) (World.init 0)
      (List.replicate 128 'z')
    (draws4 0).2 (draws4 1).2 (draws4 2).2 1 2 3 rfl rfl rfl (by decide) (by decide) (by decide)
    (by decide)

theorem drawToken_length {σ : Type} (P : Provider σ) (rb : List Nat) (w : World σ) :
    (drawToken P rb w).length = 36 :=
  tokenCode_length _ 0 (by rw [drawBuf_length])

theorem drawToken_isToken {σ : Type} (P : Provider σ) (rb : List Nat) (w : World σ) :
    isToken (drawToken P rb w) = true := by
  rw [drawToken, tokenCode_eq_encode_mod _ (drawBuf_length P rb w)]
  exact isToken_encode_mod _ (drawBuf_length P rb w)

theorem drawToken_no_slash {σ : Type} (P : Provider σ) (rb : List Nat) (w : World σ) :
    '/' ∉ drawToken P rb w :=
  fun h => tokenCode_ne_slash _ _ _ h rfl

theorem join3_eq_intercalate (t1 t2 t3 : List Char) :
    join3 t1 t2 t3 = ['/'].intercalate [t1, t2, t3] := by
  simp [join3, List.intercalate]

theorem splitOn_join3 {σ : Type} (P : Provider σ) (junk : Nat → Nat) (w : World σ) :
    (join3 (drawToken P (randBuf0 junk) w)
        (drawToken P (drawBuf P (randBuf0 junk) w) (afterDraw P w))
      (drawToken P (drawBuf P (drawBuf P (randBuf0 junk) w) (afterDraw P w))
          (afterDraw P (afterDraw P w)))).splitOn '/' = runTokens P (randBuf0 junk) w := by
  rw [join3_eq_intercalate]
  apply List.splitOn_intercalate
  · intro l hl
    simp only [List.mem_cons, List.mem_singleton, List.not_mem_nil, or_false] at hl
    rcases hl with rfl | rfl | rfl <;> exact drawToken_no_slash _ _ _
  · simp

theorem mem_runTokens {σ : Type} (P : Provider σ) (junk : Nat → Nat) (w : World σ) (t : List Char)
    (h : t ∈ runTokens P (randBuf0 junk) w) : t.length = 36 ∧ isToken t = true := by
  simp only [runTokens, List.mem_cons, List.mem_singleton, List.not_mem_nil, or_false] at h
  rcases h with rfl | rfl | rfl <;> exact ⟨drawToken_length _ _ _, drawToken_isToken _ _ _⟩

set_option maxRecDepth 100000 in
/-- C4, refuted as stated: the string of a successful run has 110 characters
and splits on `/` into three substrings, not 147 characters and four. -/
theorem generate_pool_secret_split_counterexample :
    (outcome (generate_pool_secret (scripted 1 32 draws4) (fun _ => 0) (World.init 0)
        (List.replicate 160 'z'))).map
      (fun x => (x.1, x.2.length, (x.2.splitOn '/').length)) = some (0, 110, 3) ∧
    (110, 3) ≠ (4 * 36 + 3, 4) := by
  decide

/-- C4, amended: the string left by every successful `generate_pool_secret`
call has length exactly `3 * 36 + 2 = 110`, and splitting it on `/` yields
exactly 3 substrings, each 36 characters long and matching the token pattern. -/
theorem generate_pool_secret_split {σ : Type} (P : Provider σ) (junk : Nat → Nat) (w w1 : World σ)
    (m m1 : List Char) (hm : 111 ≤ m.length)
    (h : generate_pool_secret P junk w m = .ok (0, w1, m1)) :
    (cstr m1).length = 3 * 36 + 2 ∧ (cstr m1).length = 110 ∧
      ((cstr m1).splitOn '/').length = 3 ∧
      ∀ t ∈ (cstr m1).splitOn '/', t.length = 36 ∧ isToken t = true := by
  obtain ⟨_, _, hm1, _⟩ := generate_pool_secret_ok P junk w w1 m m1 0 hm h (by decide)
  rw [hm1, cstr_join3, splitOn_join3]
  refine ⟨?_, ?_, rfl, mem_runTokens P junk w⟩ <;>
    simp [join3, drawToken_length]

set_option maxRecDepth 100000 in
theorem generate_pool_secret_split_witness :
    (cstr demoBuf).length = 3 * 36 + 2 ∧ (cstr demoBuf).length = 110 ∧
      ((cstr demoBuf).splitOn '/').length = 3 ∧
      ∀ t ∈ (cstr demoBuf).splitOn '/', t.length = 36 ∧ isToken t = true :=
  generate_pool_secret_split (scripted 1 32 draws4) (fun _ => 0) (World.init 0) demoWorld
    (List.replicate 128 'z') demoBuf (by decide) (by decide)

theorem mainBuf_length (stack : Nat → Char) : (mainBuf stack).length = 128 := by
  simp [mainBuf, BUF_SIZE]

theorem load_syms_frame {σ : Type} (L : Linker) (names : List String) :
    ∀ w : World σ, (load_syms L names w).2.lib = w.lib ∧ (load_syms L names w).2.calls = w.calls ∧
      (load_syms L names w).2.out = w.out := by
  induction names with
  | nil => intro w; exact ⟨rfl, rfl, rfl⟩
  | cons name rest ih =>
    intro w
    unfold load_syms load_sym
    by_cases h : L.dlsym name = true
    · simp only [h, if_true]; exact ih w
    · simp only [h]; exact ⟨rfl, rfl, rfl⟩

theorem open_crypto_lib_frame {σ : Type} (L : Linker) (path : String) (w : World σ) :
    (open_crypto_lib L path w).2.lib = w.lib ∧ (open_crypto_lib L path w).2.calls = w.calls ∧
      (open_crypto_lib L path w).2.out = w.out := by
  unfold open_crypto_lib
  by_cases h : L.dlopen path = true
  · simp only [h, not_true_eq_false, if_false]
    have hf := load_syms_frame L
      ["ERR_get_error", "ERR_error_string", "FIPS_mode_set", "RAND_bytes", "RAND_load_file"] w
    split
    · rename_i w1 heq; rw [heq] at hf; exact hf
    · rename_i w1 heq; rw [heq] at hf; exact hf
  · simp only [h]; exact ⟨rfl, rfl, rfl⟩

theorem crypto_initialize_rng_mode_fail {σ : Type} (P : Provider σ) (w : World σ)
    (h : (P.fipsModeSet w.lib 1).1 ≠ 1) :
    (crypto_initialize_rng P w).1 = -1 ∧ (crypto_initialize_rng P w).2.out = w.out ∧
      (crypto_initialize_rng P w).2.calls = w.calls ++
        [Call.fipsModeSet 1 (P.fipsModeSet w.lib 1).1,
          Call.getError (P.getError (P.fipsModeSet w.lib 1).2).1,
          Call.getErrorString (P.getError (P.fipsModeSet w.lib 1).2).1
            (P.getErrorString (P.getError (P.fipsModeSet w.lib 1).2).2
              (P.getError (P.fipsModeSet w.lib 1).2).1).1] ∧
      (crypto_initialize_rng P w).2.err = w.err ++
        ["Failed to set FIPS mode: `" ++
          (P.getErrorString (P.getError (P.fipsModeSet w.lib 1).2).2
              (P.getError (P.fipsModeSet w.lib 1).2).1).1 ++ "`.\n"] := by
  simp [crypto_initialize_rng, h, crypto_get_error_str]

theorem crypto_initialize_rng_seed_fail {σ : Type} (P : Provider σ) (w : World σ)
    (h1 : (P.fipsModeSet w.lib 1).1 = 1)
    (h2 : (P.randLoadFile (P.fipsModeSet w.lib 1).2 "/dev/random" 32).1 ≠ 32) :
    (crypto_initialize_rng P w).1 = -1 ∧ (crypto_initialize_rng P w).2.out = w.out ∧
      (crypto_initialize_rng P w).2.calls = w.calls ++
        [Call.fipsModeSet 1 1, Call.randLoadFile "/dev/random" 32
          (P.randLoadFile (P.fipsModeSet w.lib 1).2 "/dev/random" 32).1] ∧
      (crypto_initialize_rng P w).2.err = w.err ++ ["Failed to add rand bytes to PRNG.\n"] := by
  simp [crypto_initialize_rng, h1, h2]

theorem crypto_initialize_rng_ok {σ : Type} (P : Provider σ) (w : World σ)
    (h1 : (P.fipsModeSet w.lib 1).1 = 1)
    (h2 : (P.randLoadFile (P.fipsModeSet w.lib 1).2 "/dev/random" 32).1 = 32) :
    (crypto_initialize_rng P w).1 = 0 ∧ (crypto_initialize_rng P w).2.out = w.out ∧
      (crypto_initialize_rng P w).2.calls = w.calls ++
        [Call.fipsModeSet 1 1, Call.randLoadFile "/dev/random" 32 32] ∧
      (crypto_initialize_rng P w).2.err = w.err := by
  simp [crypto_initialize_rng, h1, h2]

theorem crypto_initialize_rng_frame {σ : Type} (P : Provider σ) (w : World σ) :
    (crypto_initialize_rng P w).2.out = w.out ∧
      ∃ cs, (crypto_initialize_rng P w).2.calls = w.calls ++ cs ∧
        cs.all (fun c => !c.isDraw) = true := by
  by_cases h1 : (P.fipsModeSet w.lib 1).1 = 1
  · by_cases h2 : (P.randLoadFile (P.fipsModeSet w.lib 1).2 "/dev/random" 32).1 = 32
    · obtain ⟨_, ho, hc, _⟩ := crypto_initialize_rng_ok P w h1 h2
      exact ⟨ho, _, hc, rfl⟩
    · obtain ⟨_, ho, hc, _⟩ := crypto_initialize_rng_seed_fail P w h1 h2
      exact ⟨ho, _, hc, rfl⟩
  · obtain ⟨_, ho, hc, _⟩ := crypto_initialize_rng_mode_fail P w h1
    exact ⟨ho, _, hc, rfl⟩

theorem crypto_initialize_rng_status {σ : Type} (P : Provider σ) (w : World σ) :
    (crypto_initialize_rng P w).1 = 0 ∨ (crypto_initialize_rng P w).1 = -1 := by
  by_cases h1 : (P.fipsModeSet w.lib 1).1 = 1
  · by_cases h2 : (P.randLoadFile (P.fipsModeSet w.lib 1).2 "/dev/random" 32).1 = 32
    · exact Or.inl (crypto_initialize_rng_ok P w h1 h2).1
    · exact Or.inr (crypto_initialize_rng_seed_fail P w h1 h2).1
  · exact Or.inr (crypto_initialize_rng_mode_fail P w h1).1

theorem isFailedDraw_afterDraw {σ : Type} (P : Provider σ) (w : World σ) :
    (afterDraw P w).out = w.out ∧ (afterDraw P w).err = w.err ∧
      (afterDraw P w).calls = w.calls ++
        [Call.randBytes 16 (drawStatus P w) (P.randBytes w.lib 16).1.2] :=
  ⟨rfl, rfl, rfl⟩

theorem drawFailed_frame {σ : Type} (P : Provider σ) (w : World σ) :
    (drawFailed P w).out = w.out ∧
      (drawFailed P w).calls = w.calls ++
        [Call.getError (P.getError w.lib).1,
          Call.getErrorString (P.getError w.lib).1
            (P.getErrorString (P.getError w.lib).2 (P.getError w.lib).1).1] :=
  ⟨rfl, rfl⟩

theorem generate_pool_secret_run {σ : Type} (P : Provider σ) (junk : Nat → Nat) (w : World σ)
    (m : List Char)
    (hm : 111 ≤ m.length) :
    ∃ r w2 m2 cs, generate_pool_secret P junk w m = .ok (r, w2, m2) ∧ w2.out = w.out ∧
      w2.calls = w.calls ++ cs ∧
      ((r = -1 ∧ cs.any Call.isFailedDraw = true) ∨
        (r = 0 ∧ cs.any Call.isFailedDraw = false ∧ NUL ∈ m2 ∧
          (cs.filter Call.isDraw).length = 3)) := by
  rw [generate_pool_secret_eq P junk w m hm]
  by_cases h1 : drawStatus P w ≠ 1
  · rw [if_pos h1]
    refine ⟨_, _, _, ?_, rfl, ?_, ?_, Or.inl ⟨rfl, ?_⟩⟩
    rotate_left
    · rfl
    · rw [(drawFailed_frame P _).2, (isFailedDraw_afterDraw P w).2.2, List.append_assoc]
      exact rfl
    · simp [Call.isFailedDraw, h1]
  · rw [if_neg h1]
    by_cases h2 : drawStatus P (afterDraw P w) ≠ 1
    · rw [if_pos h2]
      refine ⟨_, _, _, ?_, rfl, ?_, ?_, Or.inl ⟨rfl, ?_⟩⟩
      rotate_left
      · rfl
      · rw [(drawFailed_frame P _).2, (isFailedDraw_afterDraw P _).2.2,
          (isFailedDraw_afterDraw P w).2.2, List.append_assoc, List.append_assoc]
        exact rfl
      · simp [Call.isFailedDraw, h2]
    · rw [if_neg h2]
      by_cases h3 : drawStatus P (afterDraw P (afterDraw P w)) ≠ 1
      · rw [if_pos h3]
        refine ⟨_, _, _, ?_, rfl, ?_, ?_, Or.inl ⟨rfl, ?_⟩⟩
        rotate_left
        · rfl
        · rw [(drawFailed_frame P _).2, (isFailedDraw_afterDraw P _).2.2,
            (isFailedDraw_afterDraw P _).2.2, (isFailedDraw_afterDraw P w).2.2,
            List.append_assoc, List.append_assoc, List.append_assoc]
          exact rfl
        · simp [Call.isFailedDraw, h3]
      · rw [if_neg h3]
        refine ⟨_, _, _, ?_, rfl, ?_, ?_, Or.inr ⟨rfl, ?_, ?_, ?_⟩⟩
        rotate_left
        · rfl
        · rw [(isFailedDraw_afterDraw P _).2.2,
            (isFailedDraw_afterDraw P _).2.2, (isFailedDraw_afterDraw P w).2.2,
            List.append_assoc, List.append_assoc]
          exact rfl
        · simp only [ne_eq, not_not] at h1 h2 h3
          simp [Call.isFailedDraw, h1, h2, h3]
        · simp
        · simp [Call.isDraw]

theorem load_syms_ok {σ : Type} (L : Linker) (names : List String) :
    ∀ w : World σ, (load_syms L names w).1 = true → (load_syms L names w).2 = w := by
  induction names with
  | nil => intro w _; rfl
  | cons name rest ih =>
    intro w
    unfold load_syms load_sym
    by_cases h : L.dlsym name = true
    · simp only [h, if_true]; exact ih w
    · simp only [h]; intro hc; cases hc

theorem open_crypto_lib_ok {σ : Type} (L : Linker) (path : String) (w : World σ)
    (h : ¬ (open_crypto_lib L path w).1 < 0) : (open_crypto_lib L path w).2 = w := by
  unfold open_crypto_lib at h ⊢
  by_cases hd : L.dlopen path = true
  · simp only [hd, not_true_eq_false, if_false] at h ⊢
    have hf := load_syms_ok L
      ["ERR_get_error", "ERR_error_string", "FIPS_mode_set", "RAND_bytes", "RAND_load_file"] w
    split
    · rename_i w1 heq; rw [heq] at hf; exact hf rfl
    · rename_i w1 heq; rw [heq] at h; exact absurd (show ((-1 : Int) < 0) by decide) h
  · simp only [hd] at h
    exact absurd (show ((-1 : Int) < 0) by decide) h

theorem all_not_draw_any (cs : List Call) (h : cs.all (fun c => !c.isDraw) = true) :
    cs.any Call.isFailedDraw = false ∧ (cs.filter Call.isDraw).length = 0 := by
  induction cs with
  | nil => exact ⟨rfl, rfl⟩
  | cons c cs ih =>
    simp only [List.all_cons, Bool.and_eq_true] at h
    obtain ⟨h1, h2⟩ := ih h.2
    cases c <;> simp_all [Call.isDraw, Call.isFailedDraw]

theorem main_eq {σ : Type} (L : Linker) (P : Provider σ) (argv : List String)
    (stack : Nat → Char) (junk : Nat → Nat) (w : World σ) (ha : argv.length = 2)
    (hb : ¬ (open_crypto_lib L (argv.getD 1 "") w).1 < 0) :
    main L P argv stack junk w =
      if (crypto_initialize_rng P w).1 < 0 then
        .ok (EXIT_FAILURE, close_crypto_lib (crypto_initialize_rng P w).2)
      else
        match generate_pool_secret P junk (crypto_initialize_rng P w).2 (mainBuf stack) with
        | .error e => .error e
        | .ok (r2, w2, buf2) =>
          if r2 < 0 then .ok (EXIT_FAILURE, close_crypto_lib w2)
          else
            match puts buf2 w2 with
            | .error e => .error e
            | .ok w3 => .ok (EXIT_SUCCESS, close_crypto_lib w3) := by
  have hw := open_crypto_lib_ok L (argv.getD 1 "") w hb
  unfold main
  rw [if_neg (by rw [ha]; decide)]
  rcases hopen : open_crypto_lib L (argv.getD 1 "") w with ⟨r0, w0⟩
  rw [hopen] at hb hw
  simp only [] at hb hw
  subst hw
  simp only [hb, if_false]
  rfl

theorem main_usage {σ : Type} (L : Linker) (P : Provider σ) (argv : List String)
    (stack : Nat → Char) (junk : Nat → Nat) (w : World σ) (ha : argv.length ≠ 2) :
    main L P argv stack junk w = .ok (EXIT_FAILURE,
      { w with err := w.err ++ ["Usage: pool_secret <libcrypto.so path>\n"] }) := by
  unfold main
  rw [if_pos ha]

theorem main_bind_fail {σ : Type} (L : Linker) (P : Provider σ) (argv : List String)
    (stack : Nat → Char) (junk : Nat → Nat) (w : World σ) (ha : argv.length = 2)
    (hb : (open_crypto_lib L (argv.getD 1 "") w).1 < 0) :
    main L P argv stack junk w = .ok (EXIT_FAILURE, (open_crypto_lib L (argv.getD 1 "") w).2) := by
  unfold main
  rw [if_neg (by rw [ha]; decide)]
  rcases hopen : open_crypto_lib L (argv.getD 1 "") w with ⟨r0, w0⟩
  rw [hopen] at hb
  simp only [] at hb
  simp only [hb, if_true]

/-- The possible runs of `main` from the initial world: either it stops before
any draw, or it is bound and initialised and the run of `generate_pool_secret`
decides the exit status and the output. -/
theorem main_cases {σ : Type} (L : Linker) (P : Provider σ) (argv : List String)
    (stack : Nat → Char) (junk : Nat → Nat) (st : σ) :
    ∃ r wf, main L P argv stack junk (World.init st) = .ok (r, wf) ∧
      ((r = EXIT_FAILURE ∧ wf.out = [] ∧ wf.calls.all (fun c => !c.isDraw) = true ∧
          (argv.length ≠ 2 ∨ (open_crypto_lib L (argv.getD 1 "") (World.init st)).1 < 0 ∨
            (crypto_initialize_rng P (World.init st)).1 < 0)) ∨
        (argv.length = 2 ∧ ¬ (open_crypto_lib L (argv.getD 1 "") (World.init st)).1 < 0 ∧
          ¬ (crypto_initialize_rng P (World.init st)).1 < 0 ∧
          ∃ r2 w2 m2, generate_pool_secret P junk (crypto_initialize_rng P (World.init st)).2
              (mainBuf stack) = .ok (r2, w2, m2) ∧
            ((r2 = -1 ∧ r = EXIT_FAILURE ∧ wf.out = [] ∧
                wf.calls.any Call.isFailedDraw = true) ∨
              (r2 = 0 ∧ r = EXIT_SUCCESS ∧ wf.out = cstr m2 ++ ['\n'] ∧
                wf.calls.any Call.isFailedDraw = false ∧
                (wf.calls.filter Call.isDraw).length = 3)))) := by
  by_cases ha : argv.length ≠ 2
  · exact ⟨_, _, main_usage L P argv stack junk _ ha, Or.inl ⟨rfl, rfl, rfl, Or.inl ha⟩⟩
  have ha2 : argv.length = 2 := by omega
  by_cases hb : (open_crypto_lib L (argv.getD 1 "") (World.init st)).1 < 0
  · refine ⟨_, _, main_bind_fail L P argv stack junk _ ha2 hb, Or.inl
      ⟨rfl, ?_, ?_, Or.inr (Or.inl hb)⟩⟩
    · rw [(open_crypto_lib_frame L _ _).2.2]; rfl
    · rw [(open_crypto_lib_frame L _ _).2.1]; rfl
  rw [main_eq L P argv stack junk _ ha2 hb]
  obtain ⟨hio, ics, hic, hia⟩ := crypto_initialize_rng_frame P (World.init st)
  have hic2 : (crypto_initialize_rng P (World.init st)).2.calls = ics := by
    rw [hic]; rfl
  obtain ⟨hany, hcnt⟩ := all_not_draw_any ics hia
  by_cases hi : (crypto_initialize_rng P (World.init st)).1 < 0
  · rw [if_pos hi]
    refine ⟨_, _, rfl, Or.inl ⟨rfl, ?_, ?_, Or.inr (Or.inr hi)⟩⟩
    · show (crypto_initialize_rng P (World.init st)).2.out = []
      rw [hio]; rfl
    · show ((crypto_initialize_rng P (World.init st)).2.calls ++ [Call.dlclose]).all _ = true
      rw [hic2, List.all_append, hia]; rfl
  rw [if_neg hi]
  obtain ⟨r2, w2, m2, cs, hg, hgo, hgc, hcase⟩ :=
    generate_pool_secret_run P junk (crypto_initialize_rng P (World.init st)).2 (mainBuf stack)
      (by rw [mainBuf_length]; decide)
  rw [hg]
  rcases hcase with ⟨hr, hf⟩ | ⟨hr, hf, hnul, hk⟩
  · subst hr
    simp only [show ((-1 : Int) < 0) from by decide, if_true]
    refine ⟨_, _, rfl, Or.inr ⟨ha2, hb, hi, _, _, _, rfl,
      Or.inl ⟨rfl, rfl, ?_, ?_⟩⟩⟩
    · show w2.out = []
      rw [hgo, hio]; rfl
    · show (w2.calls ++ [Call.dlclose]).any _ = true
      rw [hgc, List.any_append, List.any_append, hf]; simp
  · subst hr
    simp only [show ¬ ((0 : Int) < 0) from by decide, if_false, puts, hnul, if_true]
    refine ⟨_, _, rfl, Or.inr ⟨ha2, hb, hi, _, _, _, rfl, Or.inr ⟨rfl, rfl, ?_, ?_, ?_⟩⟩⟩
    · show w2.out ++ cstr m2 ++ ['\n'] = _
      rw [hgo, hio]; rfl
    · show (w2.calls ++ [Call.dlclose]).any _ = false
      rw [hgc, hic2, List.any_append, List.any_append, hf, hany]; rfl
    · show ((w2.calls ++ [Call.dlclose]).filter _).length = 3
      rw [hgc, hic2, List.filter_append, List.filter_append, List.length_append,
        List.length_append, hk, hcnt]; rfl

/-- C5: for every provider, `generate_pool_secret` (on a destination of at
least 111 bytes) returns, leaves standard output untouched, and returns -1
whenever one of the draws it made failed; `main` returns, and whenever a draw
made during the run failed, standard output is empty (no token, no partial
secret) and the exit status is `EXIT_FAILURE`, which is not zero. -/
theorem fill_failure_no_output {σ : Type} (L : Linker) (P : Provider σ) (argv : List String)
    (stack : Nat → Char) (junk : Nat → Nat) (st : σ) (w : World σ) (m : List Char)
        (hm : 111 ≤ m.length) :
    (∃ r w2 m2, generate_pool_secret P junk w m = .ok (r, w2, m2) ∧ w2.out = w.out ∧
        ((w2.calls.drop w.calls.length).any Call.isFailedDraw = true → r = -1)) ∧
      ∃ r wf, main L P argv stack junk (World.init st) = .ok (r, wf) ∧
        (wf.calls.any Call.isFailedDraw = true → r = EXIT_FAILURE ∧ r ≠ 0 ∧ wf.out = []) := by
  constructor
  · obtain ⟨r, w2, m2, cs, hg, ho, hc, hcase⟩ := generate_pool_secret_run P junk w m hm
    refine ⟨r, w2, m2, hg, ho, ?_⟩
    rw [hc, List.drop_left]
    intro hf
    rcases hcase with ⟨hr, _⟩ | ⟨_, hnf, _⟩
    · exact hr
    · rw [hnf] at hf; cases hf
  · obtain ⟨r, wf, hrun, hcase⟩ := main_cases L P argv stack junk st
    refine ⟨r, wf, hrun, ?_⟩
    intro hf
    rcases hcase with ⟨hr, ho, hall, _⟩ | ⟨_, _, _, r2, w2, m2, _, hcase2⟩
    · rw [(all_not_draw_any _ hall).1] at hf; cases hf
    · rcases hcase2 with ⟨_, hr, ho, _⟩ | ⟨_, _, _, hnf, _⟩
      · exact ⟨hr, by rw [hr]; decide, ho⟩
      · rw [hnf] at hf; cases hf

set_option maxRecDepth 100000 in
theorem fill_failure_no_output_witness :
    ∃ r wf, main linkerOk (scripted 1 32 drawsThirdFails) ["pool_secret", "libcrypto.so"]
        (fun _ => 'z') (fun _ => 0) (World.init 0) = .ok (r, wf) ∧
      wf.calls.any Call.isFailedDraw = true ∧ (wf.calls.filter Call.isDraw).length = 3 ∧
      r = EXIT_FAILURE ∧ r ≠ 0 ∧ wf.out = [] := by
  obtain ⟨r, wf, hrun, himp⟩ := (fill_failure_no_output linkerOk (scripted 1 32 drawsThirdFails)
    ["pool_secret", "libcrypto.so"] (fun _ => 'z') (fun _ => 0) 0 (World.init 0)
        (List.replicate 128 'z')
    (by decide)).2
  have hconc : (match main linkerOk (scripted 1 32 drawsThirdFails)
      ["pool_secret", "libcrypto.so"] (fun _ => 'z') (fun _ => 0) (World.init 0) with
    | .ok (_, x) => x.calls.any Call.isFailedDraw && (x.calls.filter Call.isDraw).length == 3
    | .error _ => false) = true := by decide
  rw [hrun] at hconc
  simp only [Bool.and_eq_true, beq_iff_eq] at hconc
  exact ⟨r, wf, hrun, hconc.1, hconc.2, himp hconc.1⟩

/-- C6: when `FIPS_mode_set (1)` returns 1 and `RAND_load_file ("/dev/random",
32)` reports fewer than 32 bytes, `crypto_initialize_rng` returns -1 with the
diagnostic of the seeding, and `main` makes no `RAND_bytes` call, writes nothing
to standard output and exits with `EXIT_FAILURE`, which is not zero. -/
theorem insufficient_seed_no_generate {σ : Type} (L : Linker) (P : Provider σ)
    (argv : List String) (stack : Nat → Char) (junk : Nat → Nat) (st l1 l2 : σ) (n : Int)
    (hmode : P.fipsModeSet st 1 = (1, l1))
    (hseed : P.randLoadFile l1 "/dev/random" 32 = (n, l2)) (hn : n < 32) :
    (∀ w : World σ, w.lib = st →
        (crypto_initialize_rng P w).1 = -1 ∧
        (crypto_initialize_rng P w).2.err = w.err ++ ["Failed to add rand bytes to PRNG.\n"] ∧
        (crypto_initialize_rng P w).2.calls = w.calls ++
          [Call.fipsModeSet 1 1, Call.randLoadFile "/dev/random" 32 n]) ∧
      ∃ r wf, main L P argv stack junk (World.init st) = .ok (r, wf) ∧ r = EXIT_FAILURE ∧ r ≠ 0 ∧
        wf.out = [] ∧ wf.calls.all (fun c => !c.isDraw) = true := by
  have key : ∀ w : World σ, w.lib = st →
      (crypto_initialize_rng P w).1 = -1 ∧
      (crypto_initialize_rng P w).2.err = w.err ++ ["Failed to add rand bytes to PRNG.\n"] ∧
      (crypto_initialize_rng P w).2.calls = w.calls ++
        [Call.fipsModeSet 1 1, Call.randLoadFile "/dev/random" 32 n] := by
    intro w hw
    have h1 : (P.fipsModeSet w.lib 1).1 = 1 := by rw [hw, hmode]
    have h2 : (P.randLoadFile (P.fipsModeSet w.lib 1).2 "/dev/random" 32).1 ≠ 32 := by
      rw [hw, hmode, hseed]; exact fun h => by simp only [] at h; omega
    obtain ⟨a, _, c, d⟩ := crypto_initialize_rng_seed_fail P w h1 h2
    refine ⟨a, d, ?_⟩
    rw [c, hw, hmode, hseed]
  refine ⟨key, ?_⟩
  obtain ⟨r, wf, hrun, hcase⟩ := main_cases L P argv stack junk st
  refine ⟨r, wf, hrun, ?_⟩
  rcases hcase with ⟨hr, ho, hall, _⟩ | ⟨_, _, hi, _⟩
  · exact ⟨hr, by rw [hr]; decide, ho, hall⟩
  · rw [(key (World.init st) rfl).1] at hi
    exact absurd (by decide) hi

theorem insufficient_seed_no_generate_witness :
    (∀ w : World Nat, w.lib = 0 →
        (crypto_initialize_rng (scripted 1 31 draws4) w).1 = -1 ∧
        (crypto_initialize_rng (scripted 1 31 draws4) w).2.err
          = w.err ++ ["Failed to add rand bytes to PRNG.\n"] ∧
        (crypto_initialize_rng (scripted 1 31 draws4) w).2.calls = w.calls ++
          [Call.fipsModeSet 1 1, Call.randLoadFile "/dev/random" 32 31]) ∧
      ∃ r wf, main linkerOk (scripted 1 31 draws4) ["pool_secret", "libcrypto.so"]
          (fun _ => 'z') (fun _ => 0) (World.init 0) = .ok (r, wf) ∧ r = EXIT_FAILURE ∧ r ≠ 0 ∧
        wf.out = [] ∧ wf.calls.all (fun c => !c.isDraw) = true :=
  insufficient_seed_no_generate linkerOk (scripted 1 31 draws4) ["pool_secret", "libcrypto.so"]
    (fun _ => 'z') (fun _ => 0) 0 0 0 31 rfl rfl (by decide)

/-- C7: when `FIPS_mode_set (1)` returns anything other than 1,
`crypto_initialize_rng` returns -1 with the diagnostic of the mode set and
without calling `RAND_load_file` (whatever it would have returned), and `main`
makes no `RAND_bytes` call, writes nothing to standard output and exits with
`EXIT_FAILURE`, which is not zero. -/
theorem mode_set_failure_no_generate {σ : Type} (L : Linker) (P : Provider σ)
    (argv : List String) (stack : Nat → Char) (junk : Nat → Nat) (st l1 : σ) (ret : Int)
    (hmode : P.fipsModeSet st 1 = (ret, l1)) (hret : ret ≠ 1) :
    (∀ w : World σ, w.lib = st →
        (crypto_initialize_rng P w).1 = -1 ∧
        (crypto_initialize_rng P w).2.err = w.err ++
          ["Failed to set FIPS mode: `" ++
            (P.getErrorString (P.getError l1).2 (P.getError l1).1).1 ++ "`.\n"] ∧
        (crypto_initialize_rng P w).2.calls = w.calls ++
          [Call.fipsModeSet 1 ret, Call.getError (P.getError l1).1,
            Call.getErrorString (P.getError l1).1
              (P.getErrorString (P.getError l1).2 (P.getError l1).1).1]) ∧
      ∃ r wf, main L P argv stack junk (World.init st) = .ok (r, wf) ∧ r = EXIT_FAILURE ∧ r ≠ 0 ∧
        wf.out = [] ∧ wf.calls.all (fun c => !c.isDraw) = true := by
  have key : ∀ w : World σ, w.lib = st →
      (crypto_initialize_rng P w).1 = -1 ∧
      (crypto_initialize_rng P w).2.err = w.err ++
        ["Failed to set FIPS mode: `" ++
          (P.getErrorString (P.getError l1).2 (P.getError l1).1).1 ++ "`.\n"] ∧
      (crypto_initialize_rng P w).2.calls = w.calls ++
        [Call.fipsModeSet 1 ret, Call.getError (P.getError l1).1,
          Call.getErrorString (P.getError l1).1
            (P.getErrorString (P.getError l1).2 (P.getError l1).1).1] := by
    intro w hw
    have h1 : (P.fipsModeSet w.lib 1).1 ≠ 1 := by rw [hw, hmode]; exact hret
    obtain ⟨a, _, c, d⟩ := crypto_initialize_rng_mode_fail P w h1
    refine ⟨a, ?_, ?_⟩
    · rw [d, hw, hmode]
    · rw [c, hw, hmode]
  refine ⟨key, ?_⟩
  obtain ⟨r, wf, hrun, hcase⟩ := main_cases L P argv stack junk st
  refine ⟨r, wf, hrun, ?_⟩
  rcases hcase with ⟨hr, ho, hall, _⟩ | ⟨_, _, hi, _⟩
  · exact ⟨hr, by rw [hr]; decide, ho, hall⟩
  · rw [(key (World.init st) rfl).1] at hi
    exact absurd (by decide) hi

theorem mode_set_failure_no_generate_witness :
    (∀ w : World Nat, w.lib = 0 →
        (crypto_initialize_rng (scripted 0 32 draws4) w).1 = -1 ∧
        (crypto_initialize_rng (scripted 0 32 draws4) w).2.err
          = w.err ++ ["Failed to set FIPS mode: `" ++ "error" ++ "`.\n"] ∧
        (crypto_initialize_rng (scripted 0 32 draws4) w).2.calls = w.calls ++
          [Call.fipsModeSet 1 0, Call.getError 0, Call.getErrorString 0 "error"]) ∧
      ∃ r wf, main linkerOk (scripted 0 32 draws4) ["pool_secret", "libcrypto.so"]
          (fun _ => 'z') (fun _ => 0) (World.init 0) = .ok (r, wf) ∧ r = EXIT_FAILURE ∧ r ≠ 0 ∧
        wf.out = [] ∧ wf.calls.all (fun c => !c.isDraw) = true :=
  mode_set_failure_no_generate linkerOk (scripted 0 32 draws4) ["pool_secret", "libcrypto.so"]
    (fun _ => 'z') (fun _ => 0) 0 0 0 rfl (by decide)

theorem join3_chars {σ : Type} (P : Provider σ) (junk : Nat → Nat) (w : World σ) (c : Char)
    (hc : c ∈ join3 (drawToken P (randBuf0 junk) w)
        (drawToken P (drawBuf P (randBuf0 junk) w) (afterDraw P w))
        (drawToken P (drawBuf P (drawBuf P (randBuf0 junk) w) (afterDraw P w))
            (afterDraw P (afterDraw P w)))) :
    isLowerHex c = true ∨ c = '-' ∨ c = '/' := by
  simp only [join3, List.mem_append, List.mem_cons] at hc
  rcases hc with h | h | h | h | h
  · rcases mem_tokenCode _ _ c h with h1 | h1
    · exact Or.inl h1
    · exact Or.inr (Or.inl h1)
  · exact Or.inr (Or.inr h)
  · rcases mem_tokenCode _ _ c h with h1 | h1
    · exact Or.inl h1
    · exact Or.inr (Or.inl h1)
  · exact Or.inr (Or.inr h)
  · rcases mem_tokenCode _ _ c h with h1 | h1
    · exact Or.inl h1
    · exact Or.inr (Or.inl h1)

/-- C8: `main` always returns; when the provider is bound, the initialisation
succeeds and no draw of the run fails, it exits with `EXIT_SUCCESS` (zero) and
standard output holds exactly the string that `generate_pool_secret` left in
`buf` followed by one newline, the string itself containing no newline. -/
theorem main_success_output {σ : Type} (L : Linker) (P : Provider σ) (argv : List String)
    (stack : Nat → Char) (junk : Nat → Nat) (st : σ) :
    ∃ r wf, main L P argv stack junk (World.init st) = .ok (r, wf) ∧
      (argv.length = 2 → (open_crypto_lib L (argv.getD 1 "") (World.init st)).1 = 0 →
        (crypto_initialize_rng P (World.init st)).1 = 0 →
        wf.calls.any Call.isFailedDraw = false →
        r = EXIT_SUCCESS ∧ r = 0 ∧
          ∃ w2 m2, generate_pool_secret P junk (crypto_initialize_rng P (World.init st)).2
              (mainBuf stack) = .ok (0, w2, m2) ∧
            wf.out = cstr m2 ++ ['\n'] ∧ '\n' ∉ cstr m2) := by
  obtain ⟨r, wf, hrun, hcase⟩ := main_cases L P argv stack junk st
  refine ⟨r, wf, hrun, ?_⟩
  intro ha hb hi hnf
  rcases hcase with ⟨_, _, _, h | h | h⟩ | ⟨_, _, _, r2, w2, m2, hg, hcase2⟩
  · exact absurd ha h
  · rw [hb] at h; exact absurd h (by decide)
  · rw [hi] at h; exact absurd h (by decide)
  · rcases hcase2 with ⟨_, _, _, hf⟩ | ⟨hr2, hr, ho, _, _⟩
    · rw [hnf] at hf; cases hf
    · subst hr2
      refine ⟨hr, hr, w2, m2, hg, ho, ?_⟩
      obtain ⟨_, _, hm2, _⟩ := generate_pool_secret_ok P junk _ w2 _ m2 0
        (by rw [mainBuf_length]; decide) hg (by decide)
      rw [hm2, cstr_join3]
      intro hc
      rcases join3_chars P junk _ _ hc with h | h | h
      · revert h; decide
      · revert h; decide
      · revert h; decide

set_option maxRecDepth 100000 in
theorem main_success_output_witness :
    ∃ r wf, main linkerOk (scripted 1 32 draws4) ["pool_secret", "libcrypto.so"]
        (fun _ => 'z') (fun _ => 0) (World.init 0) = .ok (r, wf) ∧
      r = EXIT_SUCCESS ∧ r = 0 ∧
      (∃ w2 m2, generate_pool_secret (scripted 1 32 draws4) (fun _ => 0)
          (crypto_initialize_rng (scripted 1 32 draws4) (World.init 0)).2
          (mainBuf fun _ => 'z') = .ok (0, w2, m2) ∧
        wf.out = cstr m2 ++ ['\n'] ∧ '\n' ∉ cstr m2) ∧
      wf.out = ("00010203-0405-0607-0809-0a0b0c0d0e0f/10111213-1415-1617-1819-1a1b1c1d1e1f/"
        ++ "20212223-2425-2627-2829-2a2b2c2d2e2f\n").toList := by
  obtain ⟨r, wf, hrun, himp⟩ := main_success_output linkerOk (scripted 1 32 draws4)
    ["pool_secret", "libcrypto.so"] (fun _ => 'z') (fun _ => 0) 0
  have hconc : (match main linkerOk (scripted 1 32 draws4)
      ["pool_secret", "libcrypto.so"] (fun _ => 'z') (fun _ => 0) (World.init 0) with
    | .ok (_, x) => !(x.calls.any Call.isFailedDraw) &&
        x.out == ("00010203-0405-0607-0809-0a0b0c0d0e0f/10111213-1415-1617-1819-1a1b1c1d1e1f/"
          ++ "20212223-2425-2627-2829-2a2b2c2d2e2f\n").toList
    | .error _ => false) = true := by decide
  rw [hrun] at hconc
  simp only [Bool.and_eq_true, beq_iff_eq, Bool.not_eq_true'] at hconc
  obtain ⟨h1, h2, h3⟩ := himp (by decide) (by decide) (by decide) hconc.1
  exact ⟨r, wf, hrun, h1, h2, h3, hconc.2⟩

theorem generate_pool_secret_length {σ : Type} (P : Provider σ) (junk : Nat → Nat) (w w2 : World σ)
    (m m2 : List Char) (r : Int) (hm : 111 ≤ m.length)
    (h : generate_pool_secret P junk w m = .ok (r, w2, m2)) : m2.length = m.length := by
  rw [generate_pool_secret_eq P junk w m hm] at h
  split at h
  · simp only [Except.ok.injEq, Prod.mk.injEq] at h; rw [← h.2.2]
  · split at h
    · simp only [Except.ok.injEq, Prod.mk.injEq] at h
      rw [← h.2.2]
      simp only [List.length_append, List.length_cons, List.length_drop, drawToken_length]
      omega
    · split at h
      · simp only [Except.ok.injEq, Prod.mk.injEq] at h
        rw [← h.2.2]
        simp only [List.length_append, List.length_cons, List.length_drop, drawToken_length]
        omega
      · simp only [Except.ok.injEq, Prod.mk.injEq] at h
        rw [← h.2.2]
        simp only [List.length_append, List.length_cons, List.length_drop, drawToken_length]
        omega

/-- C9: the 128 bytes of `buf` suffice.  In the model every store goes through
`store`, which is the fault `Fault.write` as soon as its offset is not below the
length of the buffer; for every provider and every initial content of a buffer
of `BUF_SIZE = 128` bytes, `generate_pool_secret` ends without a fault (so every
byte it stored, the NUL of each `sprintf` included, went to an offset below
128), the buffer keeps its length, and after a successful run it holds the
secret, its terminator at offset 110, and the untouched bytes from offset 111
on; `main`, whose buffer this is, ends without a fault too. -/
theorem dest_buffer_suffices {σ : Type} (L : Linker) (P : Provider σ) (argv : List String)
    (stack : Nat → Char) (junk : Nat → Nat) (st : σ) (w : World σ) (m : List Char)
        (hm : m.length = BUF_SIZE) :
    (∃ r w2 m2, generate_pool_secret P junk w m = .ok (r, w2, m2) ∧ m2.length = BUF_SIZE ∧
        (r = 0 → m2 = cstr m2 ++ NUL :: m.drop 111 ∧ (cstr m2).length = 110 ∧
          (cstr m2).length + 1 ≤ BUF_SIZE)) ∧
      ∃ r wf, main L P argv stack junk (World.init st) = .ok (r, wf) := by
  have hm1 : 111 ≤ m.length := by rw [hm]; decide
  constructor
  · obtain ⟨r, w2, m2, _, hg, _⟩ := generate_pool_secret_run P junk w m hm1
    refine ⟨r, w2, m2, hg, ?_, ?_⟩
    · rw [generate_pool_secret_length P junk w w2 m m2 r hm1 hg, hm]
    · intro hr
      subst hr
      obtain ⟨_, _, hm2, _⟩ := generate_pool_secret_ok P junk w w2 m m2 0 hm1 hg (by decide)
      have hc := cstr_join3 P junk w (m.drop 111)
      rw [← hm2] at hc
      have hl : (cstr m2).length = 110 := by
        rw [hc]; simp [join3, drawToken_length]
      refine ⟨?_, hl, by rw [hl]; decide⟩
      rw [hc]; exact hm2
  · obtain ⟨r, wf, hrun, _⟩ := main_cases L P argv stack junk st
    exact ⟨r, wf, hrun⟩

set_option maxRecDepth 100000 in
theorem dest_buffer_suffices_witness :
    (∃ r w2 m2, generate_pool_secret (scripted 1 32 draws4) (fun _ => 0) (World.init 0)
          (List.replicate 128 'z') = .ok (r, w2, m2) ∧ m2.length = BUF_SIZE ∧
        (r = 0 → m2 = cstr m2 ++ NUL :: (List.replicate 128 'z').drop 111 ∧
          (cstr m2).length = 110 ∧ (cstr m2).length + 1 ≤ BUF_SIZE)) ∧
      ∃ r wf, main linkerOk (scripted 1 32 draws4) ["pool_secret", "libcrypto.so"]
        (fun _ => 'z') (fun _ => 0) (World.init 0) = .ok (r, wf) :=
  dest_buffer_suffices linkerOk (scripted 1 32 draws4) ["pool_secret", "libcrypto.so"]
    (fun _ => 'z') (fun _ => 0) 0 (World.init 0) (List.replicate 128 'z') (by decide)

set_option maxRecDepth 100000 in
/-- The bound of 111 bytes is exact: on a destination of 110 bytes the last
store of a successful run is out of bounds. -/
theorem generate_pool_secret_needs_111 :
    generate_pool_secret (scripted 1 32 draws4) (fun _ => 0) (World.init 0) (List.replicate 110 'z')
        = .error .write ∧
      outcome (generate_pool_secret (scripted 1 32 draws4) (fun _ => 0) (World.init 0)
        (List.replicate 111 'z')) = some (0,
          ("00010203-0405-0607-0809-0a0b0c0d0e0f/10111213-1415-1617-1819-1a1b1c1d1e1f/"
            ++ "20212223-2425-2627-2829-2a2b2c2d2e2f").toList) := by
  decide

theorem tokenCode_ends (src : List Nat) (h : src.length = 16) :
    ∃ a z, (tokenCode src 0).head? = some a ∧ (tokenCode src 0).getLast? = some z ∧
      isLowerHex a = true ∧ isLowerHex z = true := by
  rw [tokenCode_eq_encode_mod src h]
  obtain ⟨x0, x1, x2, x3, x4, x5, x6, x7, y0, y1, y2, y3, y4, y5, y6, y7, rfl⟩ :=
    sixteen_bytes src h
  refine ⟨hexDigit (x0 % 256 / 16), hexDigit (y7 % 256 % 16), ?_, ?_, isLowerHex_hi x0,
    isLowerHex_lo y7⟩
  · simp [encode, slice, hex]
  · simp [encode, slice, hex]

theorem adjacentSlash_append (t l : List Char) (h : '/' ∉ t) :
    adjacentSlash (t ++ l) = adjacentSlash l := by
  induction t with
  | nil => rfl
  | cons a t ih =>
    have ha : a ≠ '/' := fun e => h (e ▸ List.mem_cons_self _ _)
    have ih1 := ih fun hm => h (List.mem_cons_of_mem _ hm)
    cases t with
    | nil =>
      cases l with
      | nil => rfl
      | cons b l => simp [adjacentSlash, ha]
    | cons b t =>
      simp only [List.cons_append] at ih1 ⊢
      simp [adjacentSlash, ha, ih1]

theorem adjacentSlash_slash_cons (t l : List Char) (h : '/' ∉ t) (hne : t ≠ []) :
    adjacentSlash ('/' :: (t ++ l)) = adjacentSlash l := by
  cases t with
  | nil => exact absurd rfl hne
  | cons a t =>
    have ha : a ≠ '/' := fun e => h (e ▸ List.mem_cons_self _ _)
    have := adjacentSlash_append (a :: t) l h
    simp only [List.cons_append] at this ⊢
    simp [adjacentSlash, ha, this]

theorem drawToken_ne_nil {σ : Type} (P : Provider σ) (rb : List Nat) (w : World σ) : drawToken P rb
    w ≠ [] := by
  intro h
  have := drawToken_length P rb w
  rw [h] at this
  cases this

/-- C10: the string left by every successful `generate_pool_secret` call is
a non-empty list of tokens, each 36 characters long and matching the token
pattern, joined by single `/` characters: it begins and ends with a hexadecimal
digit, no two `/` are adjacent, the number of `/` is one less than the number of
tokens, and it contains only `[0-9a-f]`, `-` and `/`. -/
theorem generate_pool_secret_layout {σ : Type} (P : Provider σ) (junk : Nat → Nat) (w w1 : World σ)
    (m m1 : List Char) (hm : 111 ≤ m.length)
    (h : generate_pool_secret P junk w m = .ok (0, w1, m1)) :
    ∃ toks : List (List Char), toks ≠ [] ∧ (∀ t ∈ toks, t.length = 36 ∧ isToken t = true) ∧
      cstr m1 = ['/'].intercalate toks ∧
      (cstr m1).head?.map isLowerHex = some true ∧
      (cstr m1).getLast?.map isLowerHex = some true ∧
      adjacentSlash (cstr m1) = false ∧
      (cstr m1).count '/' + 1 = toks.length ∧
      ∀ c ∈ cstr m1, isLowerHex c = true ∨ c = '-' ∨ c = '/' := by
  obtain ⟨_, _, hm1, _⟩ := generate_pool_secret_ok P junk w w1 m m1 0 hm h (by decide)
  rw [hm1, cstr_join3]
  obtain ⟨a, _, ha, _, hah, _⟩ := tokenCode_ends (drawBuf P (randBuf0 junk) w)
    (drawBuf_length P _ _)
  obtain ⟨_, z, _, hz, _, hzh⟩ :=
    tokenCode_ends (drawBuf P (drawBuf P (drawBuf P (randBuf0 junk) w) (afterDraw P w))
      (afterDraw P (afterDraw P w))) (drawBuf_length P _ _)
  refine ⟨runTokens P (randBuf0 junk) w, by simp [runTokens], mem_runTokens P junk w, ?_, ?_, ?_,
      ?_, ?_,
    join3_chars P junk w⟩
  · rw [join3_eq_intercalate]; rfl
  · have e : (drawToken P (randBuf0 junk) w).head? = some a := ha
    simp [join3, e, hah]
  · have e : (drawToken P (drawBuf P (drawBuf P (randBuf0 junk) w) (afterDraw P w))
      (afterDraw P (afterDraw P w))).getLast? = some z := hz
    simp [join3, List.getLast?_cons, e, hzh]
  · have e3 := adjacentSlash_slash_cons
      (drawToken P (drawBuf P (drawBuf P (randBuf0 junk) w) (afterDraw P w))
      (afterDraw P (afterDraw P w))) []
      (drawToken_no_slash P _ _) (drawToken_ne_nil P _ _)
    rw [List.append_nil] at e3
    rw [join3, adjacentSlash_append _ _ (drawToken_no_slash P _ w),
      adjacentSlash_slash_cons _ _ (drawToken_no_slash P _ _) (drawToken_ne_nil P _ _), e3]
    rfl
  · simp [join3, runTokens, List.count_cons, List.count_eq_zero_of_not_mem
      (drawToken_no_slash P _ _)]

set_option maxRecDepth 100000 in
theorem generate_pool_secret_layout_witness :
    ∃ toks : List (List Char), toks ≠ [] ∧ (∀ t ∈ toks, t.length = 36 ∧ isToken t = true) ∧
      cstr demoBuf = ['/'].intercalate toks ∧
      (cstr demoBuf).head?.map isLowerHex = some true ∧
      (cstr demoBuf).getLast?.map isLowerHex = some true ∧
      adjacentSlash (cstr demoBuf) = false ∧
      (cstr demoBuf).count '/' + 1 = toks.length ∧
      ∀ c ∈ cstr demoBuf, isLowerHex c = true ∨ c = '-' ∨ c = '/' :=
  generate_pool_secret_layout (scripted 1 32 draws4) (fun _ => 0) (World.init 0) demoWorld
    (List.replicate 128 'z') demoBuf (by decide) (by decide)

theorem hexVal_hexDigit : ∀ n, n < 16 → hexVal (hexDigit n) = n ∧ hexDigit n ≠ '-' := by
  decide

theorem hexVal_hi (a : Nat) : hexVal (hexDigit (a % 256 / 16)) = a % 256 / 16 :=
  (hexVal_hexDigit _ (by omega)).1

theorem hexVal_lo (a : Nat) : hexVal (hexDigit (a % 256 % 16)) = a % 256 % 16 :=
  (hexVal_hexDigit _ (by omega)).1

theorem hexDigit_hi_ne_dash (a : Nat) : hexDigit (a % 256 / 16) ≠ '-' :=
  (hexVal_hexDigit _ (by omega)).2

theorem hexDigit_lo_ne_dash (a : Nat) : hexDigit (a % 256 % 16) ≠ '-' :=
  (hexVal_hexDigit _ (by omega)).2

theorem nibbles (a : Nat) : 16 * (a % 256 / 16) + a % 256 % 16 = a % 256 := by
  omega

theorem decode_encode_mod (src : List Nat) (h : src.length = 16) :
    decode (encode (src.map fun b => b % 256)) = src.map fun b => b % 256 := by
  obtain ⟨x0, x1, x2, x3, x4, x5, x6, x7, y0, y1, y2, y3, y4, y5, y6, y7, rfl⟩ :=
    sixteen_bytes src h
  simp [decode, encode, slice, hex, List.filter, hexDigit_hi_ne_dash, hexDigit_lo_ne_dash,
    unhex, hexVal_hi, hexVal_lo, nibbles]

theorem decode_encode (b : List Nat) (h : b.length = 16) (hb : ∀ x ∈ b, x < 256) :
    decode (encode b) = b := by
  have := decode_encode_mod b h
  rw [map_mod_byte b hb] at this
  exact this

/-- C11: for all buffers `a` and `b` of sixteen bytes, `generate_uuid` stores
the same token for both exactly when `a = b`; the same holds of the reference
`encode`, and hex-decoding the stored token with its dashes removed gives the
sixteen bytes of the buffer back, so no bit of the draw is forced or masked. -/
theorem generate_uuid_injective (a b : List Nat) (m : List Char) (d : Nat)
    (ha : a.length = 16) (hb : b.length = 16) (hab : ∀ x ∈ a, x < 256)
    (hbb : ∀ x ∈ b, x < 256) (hroom : d + 37 ≤ m.length) :
    ∃ ma mb, generate_uuid a 0 m d = .ok (ma, 36) ∧ generate_uuid b 0 m d = .ok (mb, 36) ∧
      (written ma d 36 = written mb d 36 ↔ a = b) ∧ (encode a = encode b ↔ a = b) ∧
      decode (written ma d 36) = a := by
  have wa : written (m.take d ++ tokenCode a 0 ++ NUL :: m.drop (d + 37)) d 36 = encode a := by
    rw [written_at _ _ _ _ _ (by rw [List.length_take]; omega)
      (by rw [tokenCode_length a 0 (by omega)]), tokenCode_eq_encode_mod a ha, map_mod_byte a hab]
  have wb : written (m.take d ++ tokenCode b 0 ++ NUL :: m.drop (d + 37)) d 36 = encode b := by
    rw [written_at _ _ _ _ _ (by rw [List.length_take]; omega)
      (by rw [tokenCode_length b 0 (by omega)]), tokenCode_eq_encode_mod b hb, map_mod_byte b hbb]
  have inj : encode a = encode b ↔ a = b := by
    constructor
    · intro e
      rw [← decode_encode a ha hab, ← decode_encode b hb hbb, e]
    · intro e; rw [e]
  refine ⟨_, _, generate_uuid_at a 0 m d (by omega) hroom, generate_uuid_at b 0 m d (by omega)
      hroom,
    ?_, inj, ?_⟩
  · rw [wa, wb]; exact inj
  · rw [wa]; exact decode_encode a ha hab

set_option maxRecDepth 100000 in
theorem generate_uuid_injective_witness :
    ∃ ma mb, generate_uuid (List.range 16) 0 (List.replicate 37 'z') 0 = .ok (ma, 36) ∧
      generate_uuid ((List.range 16).map fun x => x + 240) 0 (List.replicate 37 'z') 0
        = .ok (mb, 36) ∧
      (written ma 0 36 = written mb 0 36 ↔
        List.range 16 = (List.range 16).map fun x => x + 240) ∧
      (encode (List.range 16) = encode ((List.range 16).map fun x => x + 240) ↔
        List.range 16 = (List.range 16).map fun x => x + 240) ∧
      decode (written ma 0 36) = List.range 16 :=
  generate_uuid_injective (List.range 16) ((List.range 16).map fun x => x + 240)
    (List.replicate 37 'z') 0 (by decide) (by decide) (by decide) (by decide) (by decide)

theorem afterDraw_calls {σ : Type} (P : Provider σ) (w : World σ) :
    (afterDraw P w).calls = w.calls ++ [drawCall P w] :=
  rfl

theorem drawFailed_calls {σ : Type} (P : Provider σ) (w : World σ) :
    (drawFailed P w).calls = w.calls ++ errorCalls P w :=
  rfl

/-- The four possible runs of `generate_pool_secret` on a destination of at
least 111 bytes, with the calls each of them makes. -/
theorem generate_pool_secret_shape {σ : Type} (P : Provider σ) (junk : Nat → Nat) (w : World σ)
    (m : List Char)
    (hm : 111 ≤ m.length) :
    (drawStatus P w ≠ 1 ∧
        generate_pool_secret P junk w m = .ok (-1, drawFailed P (afterDraw P w), m) ∧
        (drawFailed P (afterDraw P w)).calls
          = w.calls ++ ([drawCall P w] ++ errorCalls P (afterDraw P w))) ∨
      (drawStatus P w = 1 ∧ drawStatus P (afterDraw P w) ≠ 1 ∧
        generate_pool_secret P junk w m = .ok (-1, drawFailed P (afterDraw P (afterDraw P w)),
          drawToken P (randBuf0 junk) w ++ '/' :: m.drop 37) ∧
        (drawFailed P (afterDraw P (afterDraw P w))).calls
          = w.calls ++ ([drawCall P w, drawCall P (afterDraw P w)]
              ++ errorCalls P (afterDraw P (afterDraw P w)))) ∨
      (drawStatus P w = 1 ∧ drawStatus P (afterDraw P w) = 1 ∧
        drawStatus P (afterDraw P (afterDraw P w)) ≠ 1 ∧
        generate_pool_secret P junk w m
          = .ok (-1, drawFailed P (afterDraw P (afterDraw P (afterDraw P w))),
            drawToken P (randBuf0 junk) w ++ '/' ::
                (drawToken P (drawBuf P (randBuf0 junk) w) (afterDraw P w) ++ '/' :: m.drop 74)) ∧
        (drawFailed P (afterDraw P (afterDraw P (afterDraw P w)))).calls
          = w.calls ++ ([drawCall P w, drawCall P (afterDraw P w),
              drawCall P (afterDraw P (afterDraw P w))]
              ++ errorCalls P (afterDraw P (afterDraw P (afterDraw P w))))) ∨
      (drawStatus P w = 1 ∧ drawStatus P (afterDraw P w) = 1 ∧
        drawStatus P (afterDraw P (afterDraw P w)) = 1 ∧
        generate_pool_secret P junk w m
          = .ok (0, afterDraw P (afterDraw P (afterDraw P w)),
            join3 (drawToken P (randBuf0 junk) w)
                (drawToken P (drawBuf P (randBuf0 junk) w) (afterDraw P w))
              (drawToken P (drawBuf P (drawBuf P (randBuf0 junk) w) (afterDraw P w))
                  (afterDraw P (afterDraw P w))) ++ NUL :: m.drop 111) ∧
        (afterDraw P (afterDraw P (afterDraw P w))).calls
          = w.calls ++ [drawCall P w, drawCall P (afterDraw P w),
              drawCall P (afterDraw P (afterDraw P w))]) := by
  rw [generate_pool_secret_eq P junk w m hm]
  by_cases h1 : drawStatus P w = 1
  · by_cases h2 : drawStatus P (afterDraw P w) = 1
    · by_cases h3 : drawStatus P (afterDraw P (afterDraw P w)) = 1
      · refine Or.inr (Or.inr (Or.inr ⟨h1, h2, h3, ?_, ?_⟩))
        · simp [h1, h2, h3, join3]
        · simp [afterDraw_calls]
      · refine Or.inr (Or.inr (Or.inl ⟨h1, h2, h3, ?_, ?_⟩))
        · simp [h1, h2, h3]
        · simp [afterDraw_calls, drawFailed_calls]
    · refine Or.inr (Or.inl ⟨h1, h2, ?_, ?_⟩)
      · simp [h1, h2]
      · simp [afterDraw_calls, drawFailed_calls]
  · refine Or.inl ⟨h1, ?_, ?_⟩
    · simp [h1]
    · simp [afterDraw_calls, drawFailed_calls]

theorem fillBuf_lt (old : List Nat) (n : Nat) (bytes : List Nat)
    (hold : ∀ x ∈ old, x < 256) : ∀ x ∈ fillBuf old n bytes, x < 256 := by
  intro x hx
  simp only [fillBuf, List.mem_map, List.mem_range] at hx
  obtain ⟨k, _, rfl⟩ := hx
  split
  · exact Nat.mod_lt _ (by decide)
  · by_cases hk : k < old.length
    · rw [List.getD_eq_getElem _ _ hk]
      exact hold _ (List.getElem_mem _)
    · rw [List.getD_eq_default _ _ (by omega)]
      decide

theorem randBuf0_lt (junk : Nat → Nat) : ∀ x ∈ randBuf0 junk, x < 256 := by
  intro x hx
  simp only [randBuf0, List.mem_map, List.mem_range] at hx
  obtain ⟨k, _, rfl⟩ := hx
  exact Nat.mod_lt _ (by decide)

theorem drawBuf_lt {σ : Type} (P : Provider σ) (rb : List Nat) (w : World σ)
    (h : ∀ x ∈ rb, x < 256) : ∀ x ∈ drawBuf P rb w, x < 256 :=
  fillBuf_lt rb 16 _ h

theorem drawToken_eq_encode_drawBuf {σ : Type} (P : Provider σ) (rb : List Nat) (w : World σ)
    (h : ∀ x ∈ rb, x < 256) : drawToken P rb w = encode (drawBuf P rb w) := by
  rw [drawToken, tokenCode_eq_encode_mod _ (drawBuf_length P rb w),
    map_mod_byte _ (drawBuf_lt P rb w h)]

theorem generate_pool_secret_calls {σ : Type} (P : Provider σ) (junk : Nat → Nat) (w : World σ)
    (m : List Char)
    (hm : 111 ≤ m.length) :
    ∃ r w2 m2 cs, generate_pool_secret P junk w m = .ok (r, w2, m2) ∧ w2.calls = w.calls ++ cs ∧
      cs.all (fun c => !c.isSeed && !c.isModeSet) = true ∧
      (r = -1 ∨ (r = 0 ∧ NUL ∈ m2)) := by
  rcases generate_pool_secret_shape P junk w m hm with ⟨_, hg, hc⟩ | ⟨_, _, hg, hc⟩ |
    ⟨_, _, _, hg, hc⟩ | ⟨_, _, _, hg, hc⟩
  · exact ⟨_, _, _, _, hg, hc, rfl, Or.inl rfl⟩
  · exact ⟨_, _, _, _, hg, hc, rfl, Or.inl rfl⟩
  · exact ⟨_, _, _, _, hg, hc, rfl, Or.inl rfl⟩
  · exact ⟨_, _, _, _, hg, hc, rfl, Or.inr ⟨rfl, by simp⟩⟩

/-- The calls of a run of `main` from the initial world: none, or the mode set
that failed with its diagnostic, or the mode set and the seeding that failed,
or the mode set and the seeding that succeeded followed by calls that are
neither. -/
theorem main_trace {σ : Type} (L : Linker) (P : Provider σ) (argv : List String)
    (stack : Nat → Char) (junk : Nat → Nat) (st : σ) :
    ∃ r wf, main L P argv stack junk (World.init st) = .ok (r, wf) ∧
      (wf.calls = [] ∨
        (∃ ret e str, wf.calls = [Call.fipsModeSet 1 ret, Call.getError e,
          Call.getErrorString e str, Call.dlclose]) ∨
        (∃ n, wf.calls = [Call.fipsModeSet 1 1, Call.randLoadFile "/dev/random" 32 n,
          Call.dlclose]) ∨
        (∃ cs, wf.calls = Call.fipsModeSet 1 1 :: Call.randLoadFile "/dev/random" 32 32 :: cs ∧
          cs.all (fun c => !c.isSeed && !c.isModeSet) = true)) := by
  by_cases ha : argv.length ≠ 2
  · exact ⟨_, _, main_usage L P argv stack junk _ ha, Or.inl rfl⟩
  have ha2 : argv.length = 2 := by omega
  by_cases hb : (open_crypto_lib L (argv.getD 1 "") (World.init st)).1 < 0
  · refine ⟨_, _, main_bind_fail L P argv stack junk _ ha2 hb, Or.inl ?_⟩
    rw [(open_crypto_lib_frame L _ _).2.1]; rfl
  rw [main_eq L P argv stack junk _ ha2 hb]
  by_cases h1 : (P.fipsModeSet (World.init st).lib 1).1 = 1
  · by_cases h2 : (P.randLoadFile (P.fipsModeSet (World.init st).lib 1).2 "/dev/random" 32).1 = 32
    · obtain ⟨hr, _, hc, _⟩ := crypto_initialize_rng_ok P (World.init st) h1 h2
      rw [if_neg (by rw [hr]; decide)]
      obtain ⟨r, w2, m2, cs, hg, hgc, hall, hcase⟩ :=
        generate_pool_secret_calls P junk (crypto_initialize_rng P (World.init st)).2
            (mainBuf stack)
          (by rw [mainBuf_length]; decide)
      rw [hg]
      rcases hcase with hr2 | ⟨hr2, hnul⟩
      · subst hr2
        simp only [show ((-1 : Int) < 0) from by decide, if_true]
        refine ⟨_, _, rfl, Or.inr (Or.inr (Or.inr ⟨cs ++ [Call.dlclose], ?_, ?_⟩))⟩
        · show w2.calls ++ [Call.dlclose] = _
          rw [hgc, hc]; rfl
        · rw [List.all_append, hall]; rfl
      · subst hr2
        simp only [show ¬ ((0 : Int) < 0) from by decide, if_false, puts, hnul, if_true]
        refine ⟨_, _, rfl, Or.inr (Or.inr (Or.inr ⟨cs ++ [Call.dlclose], ?_, ?_⟩))⟩
        · show w2.calls ++ [Call.dlclose] = _
          rw [hgc, hc]; rfl
        · rw [List.all_append, hall]; rfl
    · obtain ⟨hr, _, hc, _⟩ := crypto_initialize_rng_seed_fail P (World.init st) h1 h2
      rw [if_pos (by rw [hr]; decide)]
      refine ⟨_, _, rfl, Or.inr (Or.inr (Or.inl
        ⟨(P.randLoadFile (P.fipsModeSet (World.init st).lib 1).2 "/dev/random" 32).1, ?_⟩))⟩
      show (crypto_initialize_rng P (World.init st)).2.calls ++ [Call.dlclose] = _
      rw [hc]; rfl
  · obtain ⟨hr, _, hc, _⟩ := crypto_initialize_rng_mode_fail P (World.init st) h1
    rw [if_pos (by rw [hr]; decide)]
    refine ⟨_, _, rfl, Or.inr (Or.inl ⟨(P.fipsModeSet (World.init st).lib 1).1,
      (P.getError (P.fipsModeSet (World.init st).lib 1).2).1,
      (P.getErrorString (P.getError (P.fipsModeSet (World.init st).lib 1).2).2
        (P.getError (P.fipsModeSet (World.init st).lib 1).2).1).1, ?_⟩)⟩
    show (crypto_initialize_rng P (World.init st)).2.calls ++ [Call.dlclose] = _
    rw [hc]; rfl

theorem filter_mode_seed_nil (cs : List Call)
    (h : cs.all (fun c => !c.isSeed && !c.isModeSet) = true) :
    cs.filter Call.isModeSet = [] ∧ cs.filter Call.isSeed = [] := by
  induction cs with
  | nil => exact ⟨rfl, rfl⟩
  | cons c cs ih =>
    simp only [List.all_cons, Bool.and_eq_true] at h
    obtain ⟨h1, h2⟩ := ih h.2
    cases c <;> simp_all [Call.isSeed, Call.isModeSet]

/-- C14: `main` always returns, and in the calls of the run, for every
provider: whatever precedes a draw begins with `FIPS_mode_set (1)` returning 1
followed by `RAND_load_file ("/dev/random", 32)` (which returned 32), and
nothing that follows a draw is a seeding or a mode set; the whole run has at
most one mode set and at most one seeding. -/
theorem no_draw_before_mode_and_seed {σ : Type} (L : Linker) (P : Provider σ)
    (argv : List String) (stack : Nat → Char) (junk : Nat → Nat) (st : σ) :
    ∃ r wf, main L P argv stack junk (World.init st) = .ok (r, wf) ∧
      (∀ (pre post : List Call) (c : Call), wf.calls = pre ++ c :: post → c.isDraw = true →
        (∃ rest, pre = Call.fipsModeSet 1 1 :: Call.randLoadFile "/dev/random" 32 32 :: rest) ∧
          post.all (fun x => !x.isSeed && !x.isModeSet) = true) ∧
      (wf.calls.filter Call.isModeSet).length ≤ 1 ∧
      (wf.calls.filter Call.isSeed).length ≤ 1 := by
  obtain ⟨r, wf, hrun, hcase⟩ := main_trace L P argv stack junk st
  refine ⟨r, wf, hrun, ?_⟩
  rcases hcase with h | ⟨ret, e, str, h⟩ | ⟨n, h⟩ | ⟨cs, h, hall⟩
  · rw [h]
    refine ⟨?_, by simp, by simp⟩
    intro pre post c hc _
    simp at hc
  · rw [h]
    refine ⟨?_, by simp [Call.isModeSet], by simp [Call.isSeed]⟩
    intro pre post c hc hd
    have hmem : c ∈ [Call.fipsModeSet 1 ret, Call.getError e, Call.getErrorString e str,
        Call.dlclose] := by rw [hc]; simp
    simp only [List.mem_cons, List.mem_singleton, List.not_mem_nil, or_false] at hmem
    rcases hmem with rfl | rfl | rfl | rfl <;> cases hd
  · rw [h]
    refine ⟨?_, by simp [Call.isModeSet], by simp [Call.isSeed]⟩
    intro pre post c hc hd
    have hmem : c ∈ [Call.fipsModeSet 1 1, Call.randLoadFile "/dev/random" 32 n,
        Call.dlclose] := by rw [hc]; simp
    simp only [List.mem_cons, List.mem_singleton, List.not_mem_nil, or_false] at hmem
    rcases hmem with rfl | rfl | rfl <;> cases hd
  · rw [h]
    obtain ⟨hm0, hs0⟩ := filter_mode_seed_nil cs hall
    refine ⟨?_, by simp [Call.isModeSet, List.filter_cons, hm0],
      by simp [Call.isSeed, List.filter_cons, hs0]⟩
    intro pre post c hc hd
    rcases pre with _ | ⟨x, _ | ⟨y, rest⟩⟩
    · simp only [List.nil_append, List.cons.injEq] at hc
      rw [← hc.1] at hd; cases hd
    · simp only [List.cons_append, List.nil_append, List.cons.injEq] at hc
      rw [← hc.2.1] at hd; cases hd
    · simp only [List.cons_append, List.cons.injEq] at hc
      obtain ⟨hx, hy, hcs⟩ := hc
      refine ⟨⟨rest, by rw [hx, hy]⟩, ?_⟩
      rw [hcs, List.all_append, List.all_cons] at hall
      simp only [Bool.and_eq_true] at hall
      exact hall.2.2

set_option maxRecDepth 100000 in
theorem no_draw_before_mode_and_seed_witness :
    ∃ r wf, main linkerOk (scripted 1 32 draws4) ["pool_secret", "libcrypto.so"]
        (fun _ => 'z') (fun _ => 0) (World.init 0) = .ok (r, wf) ∧
      wf.calls = [Call.fipsModeSet 1 1, Call.randLoadFile "/dev/random" 32 32] ++
        Call.randBytes 16 1 (draws4 0).2 ::
          [Call.randBytes 16 1 (draws4 1).2, Call.randBytes 16 1 (draws4 2).2, Call.dlclose] ∧
      ((∃ rest, [Call.fipsModeSet 1 1, Call.randLoadFile "/dev/random" 32 32]
          = Call.fipsModeSet 1 1 :: Call.randLoadFile "/dev/random" 32 32 :: rest) ∧
        [Call.randBytes 16 1 (draws4 1).2, Call.randBytes 16 1 (draws4 2).2, Call.dlclose].all
          (fun x => !x.isSeed && !x.isModeSet) = true) ∧
      (wf.calls.filter Call.isModeSet).length ≤ 1 ∧
      (wf.calls.filter Call.isSeed).length ≤ 1 := by
  obtain ⟨r, wf, hrun, h1, h2, h3⟩ := no_draw_before_mode_and_seed linkerOk
    (scripted 1 32 draws4) ["pool_secret", "libcrypto.so"] (fun _ => 'z') (fun _ => 0) 0
  have hconc : (match main linkerOk (scripted 1 32 draws4)
      ["pool_secret", "libcrypto.so"] (fun _ => 'z') (fun _ => 0) (World.init 0) with
    | .ok (_, x) => decide (x.calls = [Call.fipsModeSet 1 1,
        Call.randLoadFile "/dev/random" 32 32] ++ Call.randBytes 16 1 (draws4 0).2 ::
          [Call.randBytes 16 1 (draws4 1).2, Call.randBytes 16 1 (draws4 2).2, Call.dlclose])
    | .error _ => false) = true := by decide
  rw [hrun] at hconc
  simp only [decide_eq_true_eq] at hconc
  exact ⟨r, wf, hrun, hconc, h1 _ _ _ hconc rfl, h2, h3⟩

/-- C15, refuted as stated: with the mode set returning 1 and the seeding
reporting 33 bytes, which is not less than 32, `crypto_initialize_rng` returns
-1. -/
theorem crypto_initialize_rng_seed_above_counterexample :
    ((scripted 1 33 draws4).fipsModeSet 0 1).1 = 1 ∧
      ¬ ((scripted 1 33 draws4).randLoadFile 0 "/dev/random" 32).1 < 32 ∧
      (crypto_initialize_rng (scripted 1 33 draws4) (World.init 0)).1 = -1 ∧
      (crypto_initialize_rng (scripted 1 33 draws4) (World.init 0)).1 ≠ 0 := by
  decide

/-- C15, amended: `crypto_initialize_rng` returns 0 exactly when
`FIPS_mode_set (1)` returns 1 and `RAND_load_file ("/dev/random", 32)` then
returns exactly 32; for every other pair of results it returns -1. -/
theorem crypto_initialize_rng_iff {σ : Type} (P : Provider σ) (w : World σ) :
    ((crypto_initialize_rng P w).1 = 0 ↔
        ((P.fipsModeSet w.lib 1).1 = 1 ∧
          (P.randLoadFile (P.fipsModeSet w.lib 1).2 "/dev/random" 32).1 = 32)) ∧
      (crypto_initialize_rng P w).1 =
        if (P.fipsModeSet w.lib 1).1 = 1 ∧
            (P.randLoadFile (P.fipsModeSet w.lib 1).2 "/dev/random" 32).1 = 32
        then 0 else -1 := by
  by_cases h1 : (P.fipsModeSet w.lib 1).1 = 1
  · by_cases h2 : (P.randLoadFile (P.fipsModeSet w.lib 1).2 "/dev/random" 32).1 = 32
    · have h := (crypto_initialize_rng_ok P w h1 h2).1
      simp [h, h1, h2]
    · have h := (crypto_initialize_rng_seed_fail P w h1 h2).1
      simp [h, h1, h2]
  · have h := (crypto_initialize_rng_mode_fail P w h1).1
    simp [h, h1]

theorem plain_iteration_step {σ : Type} (P : Provider σ) (rb : List Nat) (n i : Nat)
    (w : World σ) (s : List Char) (h : ∀ x ∈ rb, x < 256) :
    plain_iteration P (n + 1) i w rb s =
      if drawStatus P w ≠ 1 then (-1, afterDraw P w, if i > 0 then s ++ ['/'] else s)
      else plain_iteration P n (i + 1) (afterDraw P w) (drawBuf P rb w)
        ((if i > 0 then s ++ ['/'] else s) ++ drawToken P rb w) := by
  rw [plain_iteration, drawToken_eq_encode_drawBuf P rb w h]
  rfl

theorem generate_plain_three {σ : Type} (P : Provider σ) (junk : Nat → Nat) (w : World σ) :
    generate_plain P 3 junk w =
      if drawStatus P w ≠ 1 then (-1, afterDraw P w, [])
      else if drawStatus P (afterDraw P w) ≠ 1 then
        (-1, afterDraw P (afterDraw P w), drawToken P (randBuf0 junk) w ++ ['/'])
      else if drawStatus P (afterDraw P (afterDraw P w)) ≠ 1 then
        (-1, afterDraw P (afterDraw P (afterDraw P w)),
          drawToken P (randBuf0 junk) w ++ '/' ::
              (drawToken P (drawBuf P (randBuf0 junk) w) (afterDraw P w) ++ ['/']))
      else
        (0, afterDraw P (afterDraw P (afterDraw P w)),
          join3 (drawToken P (randBuf0 junk) w)
              (drawToken P (drawBuf P (randBuf0 junk) w) (afterDraw P w))
            (drawToken P (drawBuf P (drawBuf P (randBuf0 junk) w) (afterDraw P w))
                (afterDraw P (afterDraw P w)))) := by
  have l0 := randBuf0_lt junk
  have l1 := drawBuf_lt P _ w l0
  have l2 := drawBuf_lt P _ (afterDraw P w) l1
  unfold generate_plain
  rw [plain_iteration_step P _ _ _ _ _ l0, plain_iteration_step P _ _ _ _ _ l1,
    plain_iteration_step P _ _ _ _ _ l2, plain_iteration]
  simp [join3]

theorem drawFailed_draws {σ : Type} (P : Provider σ) (w : World σ) :
    (drawFailed P w).calls.filter Call.isDraw = w.calls.filter Call.isDraw := by
  rw [drawFailed_calls, List.filter_append]
  simp [errorCalls, Call.isDraw]

theorem take_prefix (a b : List Char) : (a ++ b).take a.length = a := by
  simp

set_option maxRecDepth 100000 in
/-- C16, refuted as stated: with a provider whose draws all succeed, the plain
iteration over the count 4 makes four draws and builds a string of 147
characters, while `generate_pool_secret` makes three draws and leaves a string
of 110 characters. -/
theorem plain_iteration_four_counterexample :
    outcome (generate_pool_secret (scripted 1 32 draws4) (fun _ => 0) (World.init 0)
        (List.replicate 160 'z'))
      ≠ some ((generate_plain (scripted 1 32 draws4) 4 (fun _ => 0) (World.init 0)).1,
          (generate_plain (scripted 1 32 draws4) 4 (fun _ => 0) (World.init 0)).2.2) ∧
      (match generate_pool_secret (scripted 1 32 draws4) (fun _ => 0) (World.init 0)
          (List.replicate 160 'z') with
        | .ok (r, x, b) => some (r, (x.calls.filter Call.isDraw).length, (cstr b).length)
        | .error _ => none) = some (0, 3, 110) ∧
      ((generate_plain (scripted 1 32 draws4) 4 (fun _ => 0) (World.init 0)).1,
        ((generate_plain (scripted 1 32 draws4) 4 (fun _ => 0) (World.init 0)).2.1.calls.filter
          Call.isDraw).length,
        (generate_plain (scripted 1 32 draws4) 4 (fun _ => 0) (World.init 0)).2.2.length) =
            (0, 4, 147) := by
  decide

/-- C16, amended: for every provider, the loop of `generate_pool_secret`
entered by `goto` is equivalent to the plain iteration over the fixed count 3:
same status, same sequence of draws, same characters stored from the start of
the destination, and on success the same string and the same world. -/
theorem generate_pool_secret_refines_plain_three {σ : Type} (P : Provider σ) (junk : Nat → Nat)
    (w : World σ)
    (m : List Char) (hm : 111 ≤ m.length) :
    ∃ r w2 m2, generate_pool_secret P junk w m = .ok (r, w2, m2) ∧
      r = (generate_plain P 3 junk w).1 ∧
      w2.calls.filter Call.isDraw = (generate_plain P 3 junk w).2.1.calls.filter Call.isDraw ∧
      m2.take (generate_plain P 3 junk w).2.2.length = (generate_plain P 3 junk w).2.2 ∧
      (r = 0 → cstr m2 = (generate_plain P 3 junk w).2.2 ∧ w2 = (generate_plain P 3 junk w).2.1) :=
          by
  rw [generate_plain_three]
  rcases generate_pool_secret_shape P junk w m hm with ⟨s1, hg, _⟩ | ⟨s1, s2, hg, _⟩ |
    ⟨s1, s2, s3, hg, _⟩ | ⟨s1, s2, s3, hg, _⟩
  · refine ⟨_, _, _, hg, ?_⟩
    rw [if_pos s1]
    exact ⟨rfl, drawFailed_draws P _, rfl, fun h => absurd h (by decide)⟩
  · refine ⟨_, _, _, hg, ?_⟩
    rw [if_neg (not_not.mpr s1), if_pos s2]
    refine ⟨rfl, drawFailed_draws P _, ?_, fun h => absurd h (by decide)⟩
    have := take_prefix (drawToken P (randBuf0 junk) w ++ ['/']) (m.drop 37)
    simpa using this
  · refine ⟨_, _, _, hg, ?_⟩
    rw [if_neg (not_not.mpr s1), if_neg (not_not.mpr s2), if_pos s3]
    refine ⟨rfl, drawFailed_draws P _, ?_, fun h => absurd h (by decide)⟩
    have := take_prefix (drawToken P (randBuf0 junk) w ++ '/' ::
        (drawToken P (drawBuf P (randBuf0 junk) w) (afterDraw P w) ++ ['/']))
      (m.drop 74)
    simpa using this
  · refine ⟨_, _, _, hg, ?_⟩
    rw [if_neg (not_not.mpr s1), if_neg (not_not.mpr s2), if_neg (not_not.mpr s3)]
    refine ⟨rfl, rfl, ?_, fun _ => ⟨cstr_join3 P junk w _, rfl⟩⟩
    exact take_prefix _ _

set_option maxRecDepth 100000 in
theorem generate_pool_secret_refines_plain_three_witness :
    ∃ r w2 m2, generate_pool_secret (scripted 1 32 drawsThirdFails) (fun _ => 0) (World.init 0)
        (List.replicate 128 'z') = .ok (r, w2, m2) ∧
      r = (generate_plain (scripted 1 32 drawsThirdFails) 3 (fun _ => 0) (World.init 0)).1 ∧
      w2.calls.filter Call.isDraw
        = (generate_plain (scripted 1 32 drawsThirdFails) 3 (fun _ => 0)
            (World.init 0)).2.1.calls.filter
            Call.isDraw ∧
      m2.take (generate_plain (scripted 1 32 drawsThirdFails) 3 (fun _ => 0)
          (World.init 0)).2.2.length
        = (generate_plain (scripted 1 32 drawsThirdFails) 3 (fun _ => 0) (World.init 0)).2.2 ∧
      (r = 0 → cstr m2 = (generate_plain (scripted 1 32 drawsThirdFails) 3 (fun _ => 0)
          (World.init 0)).2.2 ∧
        w2 = (generate_plain (scripted 1 32 drawsThirdFails) 3 (fun _ => 0) (World.init 0)).2.1) :=
  generate_pool_secret_refines_plain_three (scripted 1 32 drawsThirdFails) (fun _ => 0)
      (World.init 0)
    (List.replicate 128 'z') (by decide)

end PoolSecret
